import Mathlib

/-!
# pbuffer: a shallow embedding of `pbuffer.cpp`

The program copies STDIN to STDOUT through a bounded in-memory queue of
chunks.  The embedding keeps the program's global variables in one record
(`State`), passes the results of the system calls (`read`, `write`, `poll`,
`malloc`, `realloc`, `gettimeofday`, signal delivery) in as explicit
arguments, and records the bytes that went through the two descriptors in
two trace fields.

Machine integers: `size_t` and `uint64_t` are 64 bits wide (LP64); they are
natural numbers reduced modulo `2 ^ 64` after every update.
-/

namespace PBuffer

/-! ## Constants of the platform -/

/-- One byte of the stream. -/
abbrev Byte := Fin 256

/-- Modulus of `size_t` and `uint64_t` arithmetic. -/
def SIZE_MOD : Nat := 2 ^ 64

/-- Largest value of `ssize_t`. -/
def SSIZE_MAX : Nat := 2 ^ 63 - 1

/-- Poll flag `POLLIN` of `<poll.h>` (Linux value). -/
def POLLIN : Nat := 1
/-- Poll flag `POLLOUT` of `<poll.h>` (Linux value). -/
def POLLOUT : Nat := 4
/-- Poll flag `POLLERR` of `<poll.h>` (Linux value). -/
def POLLERR : Nat := 8
/-- Poll flag `POLLHUP` of `<poll.h>` (Linux value). -/
def POLLHUP : Nat := 16
/-- Poll flag `POLLNVAL` of `<poll.h>` (Linux value). -/
def POLLNVAL : Nat := 32

/-- Value of `EINTR` in `<errno.h>` (Linux). -/
def EINTR : Nat := 4
/-- Value of `EAGAIN` in `<errno.h>` (Linux). -/
def EAGAIN : Nat := 11
/-- Value of `EWOULDBLOCK` in `<errno.h>` (Linux: the same as `EAGAIN`). -/
def EWOULDBLOCK : Nat := 11

/-- The constant `buffer_count_shrink_threshold` (line 47). -/
def buffer_count_shrink_threshold : Nat := 16

/-! ## Data model -/

/-- The struct `buffer_info` (lines 57-72).  `buffer` is the heap block the
pointer refers to, as the list of its bytes: its capacity is the length of
the list. -/
structure buffer_info where
  buffer : List Byte
  length : Nat
  offset : Nat
deriving DecidableEq, Repr

/-- One entry of `poll_array` (the fields of `struct pollfd` the program
uses). -/
structure pollfd where
  events : Nat
  revents : Nat
deriving DecidableEq, Repr

/-- The configuration globals, fixed once option parsing is over. -/
structure Config where
  max_queue : Nat
  read_size : Nat
  show_progress : Bool
deriving DecidableEq, Repr

/-- The mutable globals of the program, and the two traces
`stdin_consumed` (bytes `read` has returned so far) and `stdout_written`
(bytes `write` has accepted so far). -/
structure State where
  poll_input : pollfd
  poll_output : pollfd
  total_read : Nat
  read_count : Nat
  write_count : Nat
  buffers : List buffer_info
  total_buffered : Nat
  no_more_input : Bool
  force_exit : Bool
  stdin_consumed : List Byte
  stdout_written : List Byte
deriving DecidableEq, Repr

/-- How a call ends: it returns (`ret`), the process ends through
`exit(code)` (`exit`), or the system-call results handed to it ran out
while one of its loops was still running (`more`).  Each carries the state
at that point. -/
inductive Outcome (σ : Type) where
  | ret (s : σ)
  | exit (code : Nat) (s : σ)
  | more (s : σ)
deriving DecidableEq, Repr

/-- The state an outcome carries. -/
def Outcome.state {σ : Type} : Outcome σ → σ
  | .ret s => s
  | .exit _ s => s
  | .more s => s

/-! ## The environment: system calls -/

/-- A system call's answer, with `sig` telling whether one of the handled
signals (SIGINT, SIGHUP, SIGTERM) was delivered, and `sighandler` ran,
before the call returned. -/
structure Sys (α : Type) where
  sig : Bool
  res : α
deriving DecidableEq, Repr

/-- What `read` answers: `error e` is a return of -1 with `errno = e`;
`data avail` is a successful return, `avail` being the bytes the descriptor
has ready (none at end of file). -/
inductive ReadResult where
  | error (errno : Nat)
  | data (avail : List Byte)
deriving DecidableEq, Repr

/-- What `write` answers: `error e` is a return of -1 with `errno = e`;
`accept n` is a successful return, `n` being the number of bytes the
descriptor has room for. -/
inductive WriteResult where
  | error (errno : Nat)
  | accept (room : Nat)
deriving DecidableEq, Repr

/-- What `poll` answers: `fail e` is a return of -1 with `errno = e`;
`ready rin rout` is a successful return, `rin` and `rout` being the
conditions that hold on the input and on the output descriptor. -/
inductive PollResult where
  | fail (errno : Nat)
  | ready (rin : Nat) (rout : Nat)
deriving DecidableEq, Repr

/-- The bytes a successful `read(fd, buf, count)` delivers: never more than
`count`, and never more than an `ssize_t` can report. -/
def sys_read (avail : List Byte) (count : Nat) : List Byte :=
  avail.take (min count SSIZE_MAX)

/-- The return value of a successful `write(fd, buf, count)`: never more
than `count`. -/
def sys_write (room : Nat) (count : Nat) : Nat :=
  min room count

/-- The cast of a `size_t` to `ssize_t`: the value itself up to `SSIZE_MAX`,
and `2 ^ 64` less above. -/
def to_ssize (n : Nat) : Int :=
  if n % SIZE_MOD ≤ SSIZE_MAX then ((n % SIZE_MOD : Nat) : Int)
  else ((n % SIZE_MOD : Nat) : Int) - (SIZE_MOD : Int)

/-- The `revents` a successful `poll` stores for an entry with interest
`events`: the requested conditions that hold, and POLLERR, POLLHUP and
POLLNVAL whether requested or not. -/
def sys_revents (events : Nat) (cond : Nat) : Nat :=
  cond &&& (events ||| POLLERR ||| POLLHUP ||| POLLNVAL)

/-- The block `malloc(n)` returns.  Its bytes are indeterminate in C; the
program never reads one before writing it, and they are zero here. -/
def malloc (n : Nat) : List Byte :=
  List.replicate n 0

/-- The block `realloc(block, n)` returns: the first `n` bytes of `block`. -/
def realloc (block : List Byte) (n : Nat) : List Byte :=
  block.take n

/-- The block after `memmove(block, block + src, n)`: its first `n` bytes
are the `n` bytes that were at offset `src`, the others stay. -/
def memmove (block : List Byte) (src : Nat) (n : Nat) : List Byte :=
  (block.drop src).take n ++ block.drop n

/-- The handler `sighandler` (lines 176-178). -/
def sighandler (s : State) : State :=
  { s with force_exit := true }

/-- Runs `sighandler` when the signal was delivered during the call. -/
def deliver (sig : Bool) (s : State) : State :=
  if sig then sighandler s else s

/-! ## The program -/

/-- The function `enable_input` (lines 89-91). -/
def enable_input (enabled : Bool) (s : State) : State :=
  { s with poll_input :=
      { s.poll_input with events := POLLERR ||| (if enabled then POLLIN else 0) } }

/-- The function `enable_output` (lines 93-95). -/
def enable_output (enabled : Bool) (s : State) : State :=
  { s with poll_output :=
      { s.poll_output with events := POLLERR ||| (if enabled then POLLOUT else 0) } }

/-- The function `check_input_block` (lines 97-99). -/
def check_input_block (cfg : Config) (s : State) : State :=
  enable_input (!(s.no_more_input || decide (s.total_buffered ≥ cfg.max_queue))) s

/-- The function `check_output_block` (lines 101-103). -/
def check_output_block (s : State) : State :=
  enable_output (!s.buffers.isEmpty) s

/-- The length `read_input` asks `read` for (line 106); the subtraction is
the unsigned one of `size_t`. -/
def to_read (cfg : Config) (s : State) : Nat :=
  min cfg.read_size ((cfg.max_queue + SIZE_MOD - s.total_buffered) % SIZE_MOD)

/-- The shrink pass of `read_input` (lines 132-140) on the queue: `none`
when `realloc` fails, which ends the process with `exit(2)`. -/
def shrink_pass (cfg : Config) (realloc_ok : Bool) (buffers : List buffer_info) :
    Option (List buffer_info) :=
  if buffers.length ≥ buffer_count_shrink_threshold then
    let i := buffers.length - buffer_count_shrink_threshold
    match buffers[i]? with
    | some buffer_to_shrink =>
      if buffer_to_shrink.length ≤ cfg.read_size / 2 then
        if realloc_ok then
          some (buffers.set i
            { buffer_to_shrink with
                buffer := realloc buffer_to_shrink.buffer buffer_to_shrink.length })
        else none
      else some buffers
    | none => some buffers
  else some buffers

/-- The branch `bread > 0` of `read_input` (lines 125-142) and the closing
`check_input_block` (line 143); `bytes` are the `bread` bytes `read` has
stored at the start of `buff.buffer`. -/
def read_positive (cfg : Config) (realloc_ok : Bool) (buff : buffer_info)
    (bytes : List Byte) (s : State) : Outcome State :=
  let bread := bytes.length
  let buff := { buff with buffer := bytes ++ buff.buffer.drop bread, length := bread }
  let s := { s with
    stdin_consumed := s.stdin_consumed ++ bytes
    buffers := s.buffers ++ [buff]
    total_buffered := (s.total_buffered + bread) % SIZE_MOD
    total_read := (s.total_read + bread) % SIZE_MOD
    read_count := (s.read_count + 1) % SIZE_MOD }
  match shrink_pass cfg realloc_ok s.buffers with
  | none => .exit 2 s
  | some bs => .ret (check_input_block cfg (enable_output true { s with buffers := bs }))

/-- The part of `read_input` from the label `read:` on (lines 111-143), run
on the successive answers of `read`: an EINTR answer with `force_exit`
unset jumps back to the label and takes the next answer. -/
def read_retry (cfg : Config) (count : Nat) (realloc_ok : Bool) (buff : buffer_info) :
    List (Sys ReadResult) → State → Outcome State
  | [], s => .more s
  | r :: rs, s =>
    let s := deliver r.sig s
    match r.res with
    | .error errno =>
      if errno = EINTR then
        if s.force_exit then .ret s
        else read_retry cfg count realloc_ok buff rs s
      else .ret (check_input_block cfg { s with no_more_input := true })
    | .data avail =>
      let bytes := sys_read avail count
      if bytes.length = 0 then
        .ret (check_input_block cfg { s with no_more_input := true })
      else read_positive cfg realloc_ok buff bytes s

/-- What the environment answers during one call of `read_input`. -/
structure ReadEnv where
  malloc_ok : Bool
  reads : List (Sys ReadResult)
  realloc_ok : Bool
deriving DecidableEq, Repr

/-- The function `read_input` (lines 105-144). -/
def read_input (cfg : Config) (s : State) (e : ReadEnv) : Outcome State :=
  let count := to_read cfg s
  if e.malloc_ok then
    read_retry cfg count e.realloc_ok
      { buffer := malloc count, length := 0, offset := 0 } e.reads s
  else .exit 2 s

/-- How one pass through the body of a loop ends: the loop goes on
(`next`), it is left (`stop`: a `break`, or its condition fails), the
process ends through `exit(code)`, or the system-call results ran out inside
a call made by the body (`more`). -/
inductive LoopStep (σ : Type) where
  | next (s : σ)
  | stop (s : σ)
  | exit (code : Nat) (s : σ)
  | more (s : σ)
deriving DecidableEq, Repr

/-- The body of the drain loop of `write_output` (lines 153-170) for one
answer of `write`; the front chunk is `buffer_to_write`. -/
def write_body (s : State) (w : Sys WriteResult) : LoopStep State :=
  match s.buffers with
  | [] => .stop s
  | buffer_to_write :: rest =>
    let s := deliver w.sig s
    match w.res with
    | .error errno =>
      if errno = EAGAIN ∨ errno = EWOULDBLOCK ∨ errno = EINTR then .stop s
      else .exit 1 s
    | .accept room =>
      let result := sys_write room buffer_to_write.length
      let s := { s with
        stdout_written := s.stdout_written ++ buffer_to_write.buffer.take result }
      let buffers :=
        if (result : Int) < to_ssize buffer_to_write.length then
          { buffer_to_write with
              buffer := memmove buffer_to_write.buffer result (buffer_to_write.length - result)
              length := buffer_to_write.length - result } :: rest
        else rest
      .next { s with
        buffers := buffers
        total_buffered := (s.total_buffered + SIZE_MOD - result) % SIZE_MOD
        write_count := (s.write_count + 1) % SIZE_MOD }

/-- The drain loop of `write_output` (lines 152-171), run on the successive
answers of `write`. -/
def write_loop : List (Sys WriteResult) → State → Outcome State
  | [], s => if s.buffers.isEmpty then .ret s else .more s
  | w :: ws, s =>
    if s.buffers.isEmpty then .ret s
    else
      match write_body s w with
      | .next s1 => write_loop ws s1
      | .stop s1 => .ret s1
      | .exit code s1 => .exit code s1
      | .more s1 => .more s1

/-- The function `write_output` (lines 146-174). -/
def write_output (cfg : Config) (s : State) (ws : List (Sys WriteResult)) : Outcome State :=
  if s.poll_output.revents &&& POLLOUT = 0 then .exit 1 s
  else
    match write_loop ws s with
    | .ret s1 => .ret (check_output_block (check_input_block cfg s1))
    | o => o

/-- The global variables as the program starts: zero-initialised, but for
the initialisers of lines 51-55 and 77-78. -/
def globals0 : State :=
  { poll_input := { events := 0, revents := 0 }
    poll_output := { events := 0, revents := 0 }
    total_read := 0
    read_count := 0
    write_count := 0
    buffers := []
    total_buffered := 0
    no_more_input := false
    force_exit := false
    stdin_consumed := []
    stdout_written := [] }

/-- The globals when `main` reaches its event loop (lines 340-341). -/
def init_state : State :=
  enable_output false (enable_input true globals0)

/-- The struct `timeval` of `<sys/time.h>`. -/
structure timeval where
  tv_sec : Int
  tv_usec : Int
deriving DecidableEq, Repr

/-- The globals together with the locals of `main`; `progress_lines` counts
the calls of `print_progress_line`. -/
structure MainState where
  g : State
  now_time : timeval
  prev_time : timeval
  timeout : Int
  progress_lines : Nat
deriving DecidableEq, Repr

/-- Milliseconds of a `timeval`, as lines 361-362 compute them (C division
truncates towards zero).  The arithmetic is that of the integers: for the
times `gettimeofday` returns, `int64_t` does not overflow. -/
def to_ms (t : timeval) : Int :=
  t.tv_sec * 1000 + Int.tdiv t.tv_usec 1000

/-- Conversion of an `int64_t` to `int`: reduction modulo `2 ^ 32` into the
range of a 32-bit `int`. -/
def to_int (x : Int) : Int :=
  (x + 2 ^ 31) % 2 ^ 32 - 2 ^ 31

/-- The block of the event loop run when `show_progress` is set (lines
360-371); `n` is what `poll` returned and `t` what `gettimeofday` stores. -/
def progress_block (n : Int) (t : timeval) (m : MainState) : MainState :=
  let m := { m with now_time := t }
  let now := to_ms m.now_time
  let prev := to_ms m.prev_time
  let diff := now - prev
  let report := n = 0 ∨ diff ≥ 1000
  let m := if report then
      { m with prev_time := m.now_time, progress_lines := m.progress_lines + 1 }
    else m
  let diff := if report then diff - 1000 else diff
  if diff ≥ 1000 then { m with timeout := 0 }
  else { m with timeout := to_int (1000 - diff) }

/-- What the environment answers during one pass through the event loop. -/
structure Iter where
  poll : Sys PollResult
  now : timeval
  rd : ReadEnv
  wr : List (Sys WriteResult)
deriving DecidableEq, Repr

/-- Lines 374-376 of the event loop. -/
def input_stage (cfg : Config) (it : Iter) (g : State) : Outcome State :=
  if g.poll_input.revents ≠ 0 then read_input cfg g it.rd else .ret g

/-- Lines 377-379 of the event loop. -/
def output_stage (cfg : Config) (it : Iter) (g : State) : Outcome State :=
  if g.poll_output.revents ≠ 0 then write_output cfg g it.wr else .ret g

/-- Lines 374-381 of the event loop: the two stages, and the test that
ends the loop after end of input with an empty queue. -/
def stages (cfg : Config) (it : Iter) (m : MainState) : LoopStep MainState :=
  match input_stage cfg it m.g with
  | .exit code g => .exit code { m with g := g }
  | .more g => .more { m with g := g }
  | .ret g =>
    match output_stage cfg it g with
    | .exit code g => .exit code { m with g := g }
    | .more g => .more { m with g := g }
    | .ret g =>
      if g.no_more_input && g.buffers.isEmpty then .stop { m with g := g }
      else .next { m with g := g }

/-- The state of `main` after a successful `poll` (line 353) and the
progress block (lines 359-372): `rin` and `rout` are the conditions that
hold on the two descriptors, `n` is the number of entries with a non-zero
`revents`. -/
def polled (cfg : Config) (it : Iter) (rin rout : Nat) (m : MainState) : MainState :=
  let rin := sys_revents m.g.poll_input.events rin
  let rout := sys_revents m.g.poll_output.events rout
  let n : Int := (if rin ≠ 0 then 1 else 0) + (if rout ≠ 0 then 1 else 0)
  let m := { m with g := { m.g with
    poll_input := { m.g.poll_input with revents := rin }
    poll_output := { m.g.poll_output with revents := rout } } }
  if cfg.show_progress then progress_block n it.now m else m

/-- The body of the event loop of `main` (lines 353-381). -/
def loop_body (cfg : Config) (m : MainState) (it : Iter) : LoopStep MainState :=
  let m := { m with g := deliver it.poll.sig m.g }
  match it.poll.res with
  | .fail errno => if errno = EINTR then .next m else .stop m
  | .ready rin rout => stages cfg it (polled cfg it rin rout m)

/-- The event loop of `main` (lines 352-382), run on the answers of the
environment to its successive passes. -/
def event_loop (cfg : Config) : List Iter → MainState → Outcome MainState
  | [], m => if m.g.force_exit then .ret m else .more m
  | it :: its, m =>
    if m.g.force_exit then .ret m
    else
      match loop_body cfg m it with
      | .next m1 => event_loop cfg its m1
      | .stop m1 => .ret m1
      | .exit code m1 => .exit code m1
      | .more m1 => .more m1

/-- What the environment answers during a run of `main`, option parsing
done: whether the two `fcntl` calls of each `setnonblock` succeed, the time
of line 347, and the passes of the event loop. -/
structure MainEnv where
  nonblock_ok : Bool
  start : timeval
  iters : List Iter
deriving DecidableEq, Repr

/-- The locals of `main` as it reaches the event loop (lines 343-350). -/
def main_init (cfg : Config) (start : timeval) : MainState :=
  if cfg.show_progress then
    { g := init_state, now_time := start, prev_time := start, timeout := 0,
      progress_lines := 0 }
  else
    { g := init_state, now_time := ⟨0, 0⟩, prev_time := ⟨0, 0⟩, timeout := -1,
      progress_lines := 0 }

/-- The state of `main` before line 338: the globals as the program
starts, `poll_array` not yet set up, the locals of lines 343-345 at their
initialisers. -/
def main_entry : MainState :=
  { g := globals0, now_time := ⟨0, 0⟩, prev_time := ⟨0, 0⟩, timeout := -1,
    progress_lines := 0 }

/-- The function `main` from line 322 on, `cfg` being what option parsing
produced.  The `exit(1)` of line 324 (no ceiling given) and the one of line
85 (a failing `fcntl` in `setnonblock`) come before `poll_array` is set up.
`ret` is the `return 0` of line 384: exit code 0. -/
def main (cfg : Config) (env : MainEnv) : Outcome MainState :=
  if cfg.max_queue = 0 then .exit 1 main_entry
  else if env.nonblock_ok then
    match event_loop cfg env.iters (main_init cfg env.start) with
    | .ret m =>
      .ret (if cfg.show_progress then { m with progress_lines := m.progress_lines + 1 } else m)
    | o => o
  else .exit 1 main_entry

/-! ## Sequences of calls -/

/-- One call of the I/O driver, with what the environment answers during
it; for `write_output`, `revents` is what `poll` has stored for the output
descriptor before the call. -/
inductive Call where
  | read_input (e : ReadEnv)
  | write_output (revents : Nat) (ws : List (Sys WriteResult))
deriving DecidableEq, Repr

/-- Makes one call. -/
def step (cfg : Config) (s : State) : Call → Outcome State
  | .read_input e => read_input cfg s e
  | .write_output revents ws =>
    write_output cfg { s with poll_output := { s.poll_output with revents := revents } } ws

/-- Makes the calls one after the other, as long as they return. -/
def run (cfg : Config) : List Call → State → Outcome State
  | [], s => .ret s
  | c :: cs, s =>
    match step cfg s c with
    | .ret s1 => run cfg cs s1
    | o => o

/-- The bytes a chunk holds: what `write` is offered for it. -/
def chunk_bytes (b : buffer_info) : List Byte :=
  b.buffer.take b.length

/-- The contents of all queued chunks, front to back. -/
def queued_bytes (bs : List buffer_info) : List Byte :=
  (bs.map chunk_bytes).flatten

/-- The sum of the unwritten lengths of the queued chunks. -/
def queued_length (bs : List buffer_info) : Nat :=
  (bs.map (fun b => b.length - b.offset)).sum

/-! ## Invariants and the definitions the proofs use -/

/-- A queued chunk is well formed: nothing of it is marked as written, it
holds at least one byte, its bytes fit into its block, and its length is
one an `ssize_t` can hold. -/
def chunk_ok (b : buffer_info) : Prop :=
  b.offset = 0 ∧ 0 < b.length ∧ b.length ≤ b.buffer.length ∧ b.length ≤ SSIZE_MAX

instance (b : buffer_info) : Decidable (chunk_ok b) := by
  unfold chunk_ok
  infer_instance

/-- The stream invariant: the queued chunks are well formed, and the bytes
written followed by the bytes queued are the bytes read. -/
structure StreamInv (s : State) : Prop where
  chunks : ∀ b ∈ s.buffers, chunk_ok b
  stream : s.stdout_written ++ queued_bytes s.buffers = s.stdin_consumed

/-- The counter invariant: `total_buffered` is the number of bytes queued
and does not exceed the ceiling. -/
structure CountInv (cfg : Config) (s : State) : Prop where
  counted : s.total_buffered = queued_length s.buffers
  bounded : s.total_buffered ≤ cfg.max_queue

/-- What the shrink pass leaves alone in a chunk. -/
def same_chunk (b c : buffer_info) : Prop :=
  c.length = b.length ∧ c.offset = b.offset ∧ chunk_bytes c = chunk_bytes b

/-- The chunk line 126-127 appends for the bytes read. -/
def new_chunk (buff : buffer_info) (bytes : List Byte) : buffer_info :=
  { buff with buffer := bytes ++ buff.buffer.drop bytes.length, length := bytes.length }

/-- The state a loop step carries. -/
def LoopStep.state {σ : Type} : LoopStep σ → σ
  | .next s => s
  | .stop s => s
  | .exit _ s => s
  | .more s => s

/-- The front chunk after a write of `result` bytes, fewer than it holds
(lines 163-164). -/
def rest_chunk (b : buffer_info) (result : Nat) : buffer_info :=
  { b with buffer := memmove b.buffer result (b.length - result)
           length := b.length - result }

/-- Input interest as the Flow Controller of the specification defines it:
not at end of input, and fewer bytes buffered than the ceiling. -/
def input_interest (cfg : Config) (s : State) : Bool :=
  !s.no_more_input && decide (s.total_buffered < cfg.max_queue)

/-- Output interest as the Flow Controller of the specification defines it:
the queue is not empty. -/
def output_interest (s : State) : Bool :=
  !s.buffers.isEmpty

/-- The interest flags of `poll_array` are those of the Flow Controller. -/
structure FlowInv (cfg : Config) (s : State) : Prop where
  input : s.poll_input.events = POLLERR ||| (if input_interest cfg s then POLLIN else 0)
  output : s.poll_output.events = POLLERR ||| (if output_interest s then POLLOUT else 0)

/-- Whether an interest word asks for the condition `flag`. -/
def requests (events : Nat) (flag : Nat) : Prop :=
  events &&& flag ≠ 0

/-- Whether the `poll` of a pass fails with an errno other than EINTR. -/
def poll_fatal (it : Iter) : Bool :=
  match it.poll.res with
  | .fail errno => decide (errno ≠ EINTR)
  | .ready _ _ => false

/-! ## Concrete runs -/

/-- A small configuration: ceiling 8 bytes, read unit 4 bytes. -/
def demo_cfg : Config :=
  { max_queue := 8, read_size := 4, show_progress := false }

/-- A `read_input` call during which `read` answers once, with `avail`. -/
def read_call (avail : List Byte) : Call :=
  .read_input { malloc_ok := true, reads := [⟨false, .data avail⟩], realloc_ok := true }

/-- A `write_output` call with POLLOUT reported, during which `write` takes
`room` bytes and then answers EAGAIN. -/
def write_call (room : Nat) : Call :=
  .write_output POLLOUT [⟨false, .accept room⟩, ⟨false, .error EAGAIN⟩]

/-- Reads 3 bytes, writes 2 of them, reads 2 more bytes. -/
def demo_calls : List Call :=
  [read_call [1, 2, 3], write_call 2, read_call [4, 5]]

/-- Reads 3 bytes, writes 2 of them, meets end of input, writes the last
byte. -/
def demo_calls_drained : List Call :=
  [read_call [1, 2, 3], write_call 2, read_call [], write_call 7]

/-- Ceiling 100 bytes, read unit 4 bytes. -/
def shrink_cfg : Config :=
  { max_queue := 100, read_size := 4, show_progress := false }

/-- The state after fifteen reads of one byte each. -/
def shrink_state : State :=
  (run shrink_cfg (List.replicate 15 (read_call [7])) init_state).state

/-- A `read_input` call during which `read` delivers two bytes. -/
def shrink_read : ReadEnv :=
  { malloc_ok := true, reads := [⟨false, .data [8, 9]⟩], realloc_ok := true }

/-- The state after one read of three bytes. -/
def one_read_state : State :=
  (run demo_cfg [read_call [1, 2, 3]] init_state).state

/-- The state after one read of three bytes, with POLLOUT reported. -/
def one_read_ready : State :=
  { one_read_state with poll_output := { one_read_state.poll_output with revents := POLLOUT } }

/-- Ceiling 100 bytes, read unit 50 bytes. -/
def full_cfg : Config :=
  { max_queue := 100, read_size := 50, show_progress := false }

/-- Two reads of 50 bytes each. -/
def full_calls : List Call :=
  [read_call (List.replicate 50 1), read_call (List.replicate 50 2)]

/-- A read of 50 bytes, a read of 49 bytes, a read of 1 byte. -/
def brim_calls : List Call :=
  [read_call (List.replicate 50 1), read_call (List.replicate 49 2), read_call [3]]

/-- A pass of the event loop: `poll` reports the input readable, `read`
delivers three bytes. -/
def pass_read : Iter :=
  { poll := ⟨false, .ready POLLIN 0⟩, now := ⟨0, 0⟩,
    rd := { malloc_ok := true, reads := [⟨false, .data [1, 2, 3]⟩], realloc_ok := true },
    wr := [] }

/-- A pass of the event loop: a signal is delivered during `poll`, which
fails with EINTR. -/
def pass_signal : Iter :=
  { poll := ⟨true, .fail EINTR⟩, now := ⟨0, 0⟩,
    rd := { malloc_ok := true, reads := [], realloc_ok := true }, wr := [] }

/-- A pass of the event loop: `poll` reports the output writable, `write`
takes all it is offered. -/
def pass_write : Iter :=
  { poll := ⟨false, .ready 0 POLLOUT⟩, now := ⟨0, 0⟩,
    rd := { malloc_ok := true, reads := [], realloc_ok := true },
    wr := [⟨false, .accept 100⟩] }

/-- A pass of the event loop: `poll` reports both descriptors ready, `read`
meets the end of the input, `write` takes all it is offered. -/
def pass_drain : Iter :=
  { poll := ⟨false, .ready POLLIN POLLOUT⟩, now := ⟨0, 0⟩,
    rd := { malloc_ok := true, reads := [⟨false, .data []⟩], realloc_ok := true },
    wr := [⟨false, .accept 100⟩] }

/-- Three bytes are read, then a signal arrives. -/
def stop_env : MainEnv :=
  { nonblock_ok := true, start := ⟨0, 0⟩, iters := [pass_read, pass_signal] }

/-- Three bytes are read, then a signal arrives; after it the output would
be writable. -/
def stop_writable_env : MainEnv :=
  { nonblock_ok := true, start := ⟨0, 0⟩, iters := [pass_read, pass_signal, pass_write] }

/-- Three bytes are read, the input ends, the queue is drained. -/
def drain_env : MainEnv :=
  { nonblock_ok := true, start := ⟨0, 0⟩, iters := [pass_read, pass_drain] }

/-- The state of `main` after the pass `pass_read`. -/
def after_pass_read : MainState :=
  (loop_body demo_cfg (main_init demo_cfg ⟨0, 0⟩) pass_read).state

/-- A `read_input` call during which `read` fails once, with `errno`. -/
def failing_read (errno : Nat) : ReadEnv :=
  { malloc_ok := true, reads := [⟨false, .error errno⟩], realloc_ok := true }

/-- The value `EIO` of `<errno.h>` (Linux). -/
def EIO : Nat := 5

/-- The state after fifteen reads of two bytes each, read unit 4. -/
def half_state : State :=
  (run shrink_cfg (List.replicate 15 (read_call [7, 7])) init_state).state

/-- The locals of `main` with progress reporting on, started at time 5 s. -/
def progress_start : MainState :=
  main_init { max_queue := 8, read_size := 4, show_progress := true } ⟨5, 0⟩

/-- Ceiling 4 bytes, read unit 4 bytes. -/
def tight_cfg : Config :=
  { max_queue := 4, read_size := 4, show_progress := false }

/-- A pass of the event loop: `poll` reports the input readable, `read`
delivers four bytes. -/
def pass_fill : Iter :=
  { poll := ⟨false, .ready POLLIN 0⟩, now := ⟨0, 0⟩,
    rd := { malloc_ok := true, reads := [⟨false, .data [1, 2, 3, 4]⟩], realloc_ok := true },
    wr := [] }

/-- A pass of the event loop: the writer of the input has hung up, `poll`
reports POLLHUP; two more bytes are ready to be read. -/
def pass_hangup : Iter :=
  { poll := ⟨false, .ready POLLHUP 0⟩, now := ⟨0, 0⟩,
    rd := { malloc_ok := true, reads := [⟨false, .data [5, 6]⟩], realloc_ok := true },
    wr := [] }

/-- The state of `main` after the pass `pass_fill`, ceiling 4. -/
def after_pass_fill : MainState :=
  (loop_body tight_cfg (main_init tight_cfg ⟨0, 0⟩) pass_fill).state

/-- Four bytes fill the queue, the writer hangs up with two more bytes to
read, the output becomes writable. -/
def hangup_env : MainEnv :=
  { nonblock_ok := true, start := ⟨0, 0⟩, iters := [pass_fill, pass_hangup, pass_write] }

/-- A pass of the event loop: `poll` reports the input readable, `read`
meets the end of the input. -/
def pass_eof : Iter :=
  { poll := ⟨false, .ready POLLIN 0⟩, now := ⟨0, 0⟩,
    rd := { malloc_ok := true, reads := [⟨false, .data []⟩], realloc_ok := true },
    wr := [] }

/-- A pass of the event loop: `poll` reports POLLHUP on the input, and no
answer of `read` is at hand. -/
def pass_hangup_silent : Iter :=
  { poll := ⟨false, .ready POLLHUP 0⟩, now := ⟨0, 0⟩,
    rd := { malloc_ok := true, reads := [], realloc_ok := true },
    wr := [] }

/-- The state of `main` after the passes `pass_read` and `pass_eof`. -/
def after_pass_eof : MainState :=
  (loop_body demo_cfg after_pass_read pass_eof).state

/-! ## Option parsing: `parse_size` -/

/-- The function `isspace` of `<ctype.h>` in the C locale: space, and the
control characters 9 to 13. -/
def isspace (c : Char) : Bool :=
  c.toNat = 32 || (9 ≤ c.toNat && c.toNat ≤ 13)

/-- The value of a character as a digit, letters counting from 10, as
`strtoul` reads them. -/
def digit_value (c : Char) : Option Nat :=
  if 48 ≤ c.toNat ∧ c.toNat ≤ 57 then some (c.toNat - 48)
  else if 97 ≤ c.toNat ∧ c.toNat ≤ 122 then some (c.toNat - 97 + 10)
  else if 65 ≤ c.toNat ∧ c.toNat ≤ 90 then some (c.toNat - 65 + 10)
  else none

/-- Whether a character is a digit of the base. -/
def is_digit (base : Nat) (c : Char) : Bool :=
  match digit_value c with
  | some d => decide (d < base)
  | none => false

/-- The longest run of digits of the base at the start of a text: its value
on top of `acc`, and the text after it. -/
def scan_digits (base : Nat) : List Char → Nat → Nat × List Char
  | [], acc => (acc, [])
  | c :: cs, acc =>
    match digit_value c with
    | some d => if d < base then scan_digits base cs (acc * base + d) else (acc, c :: cs)
    | none => (acc, c :: cs)

/-- The function `strtoul` of the C library with base 0, on the text
`input`: the value it returns and the text `*end` points to.  White space
is skipped, a sign is taken, the base is 16 after `0x` or `0X` followed by
a hexadecimal digit, 8 after `0`, and 10 otherwise; a value above
`ULONG_MAX` gives `ULONG_MAX`, a minus sign negates in `unsigned long`;
when there is no digit the value is 0 and `*end` is `input`. -/
def strtoul (input : List Char) : Nat × List Char :=
  let s := input.dropWhile isspace
  let neg := s.head? = some '-'
  let s := if s.head? = some '-' ∨ s.head? = some '+' then s.tail else s
  let hex := s.head? = some '0' ∧ (s.tail.head? = some 'x' ∨ s.tail.head? = some 'X') ∧
    (s.tail.tail.head?.map (is_digit 16)) = some true
  let base := if hex then 16 else if s.head? = some '0' then 8 else 10
  let digits := if hex then s.tail.tail else s
  let r := scan_digits base digits 0
  if r.2.length = digits.length then (0, input)
  else if r.1 ≥ SIZE_MOD then (SIZE_MOD - 1, r.2)
  else if neg then ((SIZE_MOD - r.1) % SIZE_MOD, r.2)
  else (r.1, r.2)

/-- The function `parse_size` (lines 207-222) on the text `input`, `output`
being the value of the variable before the call: whether it returns true,
and the value of the variable after it.  `strtoul` always stores `*end`,
so the branch of line 210 is never taken. -/
def parse_size (input : List Char) (output : Nat) : Bool × Nat :=
  let r := strtoul input
  let value := r.1
  let end_text := r.2
  if end_text = [] then (true, value)
  else if end_text = ['k'] then (true, (value <<< 10) % SIZE_MOD)
  else if end_text = ['M'] then (true, (value <<< 20) % SIZE_MOD)
  else if end_text = ['G'] then (true, (value <<< 30) % SIZE_MOD)
  else if end_text = ['T'] then (true, (value <<< 40) % SIZE_MOD)
  else (false, output)

/-- The character of a decimal digit. -/
def digit_char (d : Fin 10) : Char :=
  Char.ofNat (48 + d.val)

/-- The text of a decimal numeral, given by its digits, the leading one
first. -/
def numeral_text (ds : List (Fin 10)) : List Char :=
  ds.map digit_char

/-- The number a decimal numeral denotes. -/
def numeral_value (ds : List (Fin 10)) : Nat :=
  ds.foldl (fun acc d => acc * 10 + d.val) 0

/-- Whether a text begins with `x` or `X` and a hexadecimal digit: after a
`0`, such a text makes `strtoul` read a hexadecimal number. -/
def hex_start (t : List Char) : Prop :=
  (t.head? = some 'x' ∨ t.head? = some 'X') ∧ t.tail.head?.map (is_digit 16) = some true

instance (t : List Char) : Decidable (hex_start t) := by
  unfold hex_start
  infer_instance

/-! ## Lemmas -/

/-! ### Lists -/

theorem map_set_of_eq {α β : Type} (f : α → β) :
    ∀ (l : List α) (i : Nat) (a b : α), l[i]? = some a → f b = f a →
      (l.set i b).map f = l.map f
  | [], _, _, _, h, _ => by simp at h
  | x :: l, 0, a, b, h, hf => by
    simp at h
    simp [h, hf]
  | x :: l, i + 1, a, b, h, hf => by
    simp at h
    simp [map_set_of_eq f l i a b h hf]

theorem queued_bytes_append (bs cs : List buffer_info) :
    queued_bytes (bs ++ cs) = queued_bytes bs ++ queued_bytes cs := by
  simp [queued_bytes]

theorem queued_length_append (bs cs : List buffer_info) :
    queued_length (bs ++ cs) = queued_length bs + queued_length cs := by
  simp [queued_length]

theorem queued_bytes_cons (b : buffer_info) (bs : List buffer_info) :
    queued_bytes (b :: bs) = chunk_bytes b ++ queued_bytes bs := by
  simp [queued_bytes]

theorem queued_length_cons (b : buffer_info) (bs : List buffer_info) :
    queued_length (b :: bs) = (b.length - b.offset) + queued_length bs := by
  simp [queued_length]

/-! ### The shrink pass -/

theorem realloc_same (b : buffer_info) :
    same_chunk b { b with buffer := realloc b.buffer b.length } := by
  simp [same_chunk, chunk_bytes, realloc, List.take_take]

theorem realloc_chunk_ok (b : buffer_info) (h : chunk_ok b) :
    chunk_ok { b with buffer := realloc b.buffer b.length } := by
  obtain ⟨h1, h2, h3, h4⟩ := h
  simp [chunk_ok, realloc, h1, h2, h3, h4]

/-- The shrink pass yields the queue itself, or the queue with the block of
one chunk reallocated to the chunk's length. -/
theorem shrink_pass_cases (cfg : Config) (ok : Bool) (bs cs : List buffer_info)
    (h : shrink_pass cfg ok bs = some cs) :
    cs = bs ∨ ∃ i b, bs[i]? = some b ∧ i + buffer_count_shrink_threshold = bs.length ∧
      b.length ≤ cfg.read_size / 2 ∧
      cs = bs.set i { b with buffer := realloc b.buffer b.length } := by
  unfold shrink_pass at h
  split at h
  · rename_i hlen
    simp only at h
    split at h
    · rename_i b hb
      split at h
      · rename_i hsmall
        split at h
        · right
          refine ⟨_, b, hb, by omega, hsmall, ?_⟩
          simpa using h.symm
        · simp at h
      · left; simpa using h.symm
    · left; simpa using h.symm
  · left; simpa using h.symm

theorem shrink_pass_map (cfg : Config) (ok : Bool) (bs cs : List buffer_info)
    (h : shrink_pass cfg ok bs = some cs) :
    cs.map (fun b => b.length) = bs.map (fun b => b.length) ∧
    cs.map (fun b => b.offset) = bs.map (fun b => b.offset) ∧
    cs.map chunk_bytes = bs.map chunk_bytes := by
  rcases shrink_pass_cases cfg ok bs cs h with h | ⟨i, b, hb, -, -, h⟩
  · simp [h]
  · obtain ⟨h1, h2, h3⟩ := realloc_same b
    subst h
    exact ⟨map_set_of_eq _ bs i b _ hb h1, map_set_of_eq _ bs i b _ hb h2,
      map_set_of_eq _ bs i b _ hb h3⟩

theorem shrink_pass_queued (cfg : Config) (ok : Bool) (bs cs : List buffer_info)
    (h : shrink_pass cfg ok bs = some cs) :
    queued_bytes cs = queued_bytes bs ∧ queued_length cs = queued_length bs ∧
    cs.length = bs.length := by
  rcases shrink_pass_cases cfg ok bs cs h with h | ⟨i, b, hb, -, -, h⟩
  · simp [h]
  · obtain ⟨h1, h2, h3⟩ := realloc_same b
    subst h
    refine ⟨?_, ?_, by simp⟩
    · unfold queued_bytes
      rw [map_set_of_eq _ bs i b _ hb h3]
    · unfold queued_length
      rw [map_set_of_eq _ bs i b _ hb (by simp)]

theorem shrink_pass_chunks (cfg : Config) (ok : Bool) (bs cs : List buffer_info)
    (h : shrink_pass cfg ok bs = some cs) (hbs : ∀ b ∈ bs, chunk_ok b) :
    ∀ b ∈ cs, chunk_ok b := by
  rcases shrink_pass_cases cfg ok bs cs h with h | ⟨i, b, hb, -, -, h⟩
  · simpa [h] using hbs
  · subst h
    intro c hc
    rcases List.mem_or_eq_of_mem_set hc with hc | hc
    · exact hbs c hc
    · subst hc
      exact realloc_chunk_ok b (hbs b (List.getElem?_mem hb))

/-! ### Steps that touch neither the queue nor the traces -/

theorem StreamInv.stream_of_eq {s t : State} (h : StreamInv s) (hb : t.buffers = s.buffers)
    (hi : t.stdin_consumed = s.stdin_consumed) (ho : t.stdout_written = s.stdout_written) :
    StreamInv t :=
  ⟨by rw [hb]; exact h.chunks, by rw [hb, hi, ho]; exact h.stream⟩

theorem CountInv.count_of_eq {cfg : Config} {s t : State} (h : CountInv cfg s)
    (hb : t.buffers = s.buffers) (ht : t.total_buffered = s.total_buffered) :
    CountInv cfg t :=
  ⟨by rw [hb, ht]; exact h.counted, by rw [ht]; exact h.bounded⟩

@[simp] theorem deliver_buffers (sig : Bool) (s : State) :
    (deliver sig s).buffers = s.buffers := by
  cases sig <;> rfl

@[simp] theorem deliver_total_buffered (sig : Bool) (s : State) :
    (deliver sig s).total_buffered = s.total_buffered := by
  cases sig <;> rfl

@[simp] theorem deliver_stdin (sig : Bool) (s : State) :
    (deliver sig s).stdin_consumed = s.stdin_consumed := by
  cases sig <;> rfl

@[simp] theorem deliver_stdout (sig : Bool) (s : State) :
    (deliver sig s).stdout_written = s.stdout_written := by
  cases sig <;> rfl

@[simp] theorem deliver_no_more_input (sig : Bool) (s : State) :
    (deliver sig s).no_more_input = s.no_more_input := by
  cases sig <;> rfl

@[simp] theorem deliver_poll_input (sig : Bool) (s : State) :
    (deliver sig s).poll_input = s.poll_input := by
  cases sig <;> rfl

@[simp] theorem deliver_poll_output (sig : Bool) (s : State) :
    (deliver sig s).poll_output = s.poll_output := by
  cases sig <;> rfl

@[simp] theorem deliver_total_read (sig : Bool) (s : State) :
    (deliver sig s).total_read = s.total_read := by
  cases sig <;> rfl

@[simp] theorem deliver_read_count (sig : Bool) (s : State) :
    (deliver sig s).read_count = s.read_count := by
  cases sig <;> rfl

@[simp] theorem deliver_write_count (sig : Bool) (s : State) :
    (deliver sig s).write_count = s.write_count := by
  cases sig <;> rfl

theorem sys_read_length_le (avail : List Byte) (count : Nat) :
    (sys_read avail count).length ≤ count := by
  simp only [sys_read, List.length_take]
  omega

theorem sys_read_length_le_max (avail : List Byte) (count : Nat) :
    (sys_read avail count).length ≤ SSIZE_MAX := by
  simp only [sys_read, List.length_take]
  omega

/-- The cast to `ssize_t` leaves a length up to `SSIZE_MAX` as it is. -/
theorem to_ssize_eq (n : Nat) (h : n ≤ SSIZE_MAX) : to_ssize n = (n : Int) := by
  have hlt : n < SIZE_MOD := by
    unfold SSIZE_MAX at h
    unfold SIZE_MOD
    omega
  unfold to_ssize
  rw [Nat.mod_eq_of_lt hlt, if_pos h]

/-! ### `read_input` keeps the invariants -/

theorem new_chunk_bytes (buff : buffer_info) (bytes : List Byte) :
    chunk_bytes (new_chunk buff bytes) = bytes := by
  simp [chunk_bytes, new_chunk]

theorem new_chunk_ok (buff : buffer_info) (bytes : List Byte) (h0 : buff.offset = 0)
    (hpos : 0 < bytes.length) (hmax : bytes.length ≤ SSIZE_MAX) :
    chunk_ok (new_chunk buff bytes) := by
  refine ⟨h0, hpos, ?_, hmax⟩
  simp only [new_chunk, List.length_append, List.length_drop]
  omega

/-- The two ways `read_positive` ends. -/
theorem read_positive_cases (cfg : Config) (ok : Bool) (buff : buffer_info)
    (bytes : List Byte) (s : State) :
    let s1 : State := { s with
      stdin_consumed := s.stdin_consumed ++ bytes
      buffers := s.buffers ++ [new_chunk buff bytes]
      total_buffered := (s.total_buffered + bytes.length) % SIZE_MOD
      total_read := (s.total_read + bytes.length) % SIZE_MOD
      read_count := (s.read_count + 1) % SIZE_MOD }
    (shrink_pass cfg ok (s.buffers ++ [new_chunk buff bytes]) = none ∧
      read_positive cfg ok buff bytes s = .exit 2 s1) ∨
    (∃ bs, shrink_pass cfg ok (s.buffers ++ [new_chunk buff bytes]) = some bs ∧
      read_positive cfg ok buff bytes s =
        .ret (check_input_block cfg (enable_output true { s1 with buffers := bs }))) := by
  intro s1
  cases hsp : shrink_pass cfg ok (s.buffers ++ [new_chunk buff bytes]) with
  | none =>
    left
    simp only [new_chunk] at hsp
    simp [read_positive, hsp, s1, new_chunk]
  | some bs =>
    right
    simp only [new_chunk] at hsp
    exact ⟨bs, rfl, by simp [read_positive, hsp, s1, new_chunk]⟩

theorem read_positive_stream (cfg : Config) (ok : Bool) (buff : buffer_info)
    (bytes : List Byte) (s : State) (h : StreamInv s) (h0 : buff.offset = 0)
    (hpos : 0 < bytes.length) (hmax : bytes.length ≤ SSIZE_MAX) :
    StreamInv (read_positive cfg ok buff bytes s).state := by
  have hnew := new_chunk_ok buff bytes h0 hpos hmax
  have hall : ∀ b ∈ s.buffers ++ [new_chunk buff bytes], chunk_ok b := by
    intro b hb
    rcases List.mem_append.mp hb with hb | hb
    · exact h.chunks b hb
    · rw [List.mem_singleton.mp hb]; exact hnew
  have hstream : s.stdout_written ++ queued_bytes (s.buffers ++ [new_chunk buff bytes])
      = s.stdin_consumed ++ bytes := by
    rw [queued_bytes_append, ← List.append_assoc, h.stream]
    simp [queued_bytes, new_chunk_bytes]
  rcases read_positive_cases cfg ok buff bytes s with ⟨-, hr⟩ | ⟨bs, hsp, hr⟩
  · rw [hr]
    exact ⟨hall, hstream⟩
  · rw [hr]
    refine ⟨shrink_pass_chunks cfg ok _ bs hsp hall, ?_⟩
    have hq := (shrink_pass_queued cfg ok _ bs hsp).1
    simp only [Outcome.state, check_input_block, enable_input, enable_output]
    rw [hq]
    exact hstream

theorem read_retry_stream (cfg : Config) (count : Nat) (ok : Bool) (buff : buffer_info)
    (h0 : buff.offset = 0) :
    ∀ (rs : List (Sys ReadResult)) (s : State), StreamInv s →
      StreamInv (read_retry cfg count ok buff rs s).state
  | [], s, h => h
  | r :: rs, s, h => by
    have hd : StreamInv (deliver r.sig s) := h.stream_of_eq (by simp) (by simp) (by simp)
    unfold read_retry
    cases hres : r.res with
    | error errno =>
      simp only
      split
      · split
        · exact hd
        · exact read_retry_stream cfg count ok buff h0 rs _ hd
      · exact hd.stream_of_eq rfl rfl rfl
    | data avail =>
      simp only
      split
      · exact hd.stream_of_eq rfl rfl rfl
      · rename_i hne
        exact read_positive_stream cfg ok buff _ _ hd h0 (by omega)
          (sys_read_length_le_max avail count)

theorem read_input_stream (cfg : Config) (s : State) (e : ReadEnv) (h : StreamInv s) :
    StreamInv (read_input cfg s e).state := by
  unfold read_input
  simp only
  split
  · exact read_retry_stream cfg _ _ _ rfl _ s h
  · exact h

/-! ### `write_output` keeps the invariants -/

theorem rest_chunk_bytes (b : buffer_info) (result : Nat) (h : chunk_ok b)
    (hr : result < b.length) :
    chunk_bytes (rest_chunk b result) = (chunk_bytes b).drop result := by
  obtain ⟨-, -, hcap, -⟩ := h
  simp only [chunk_bytes, rest_chunk, memmove, List.drop_take]
  rw [List.take_append_of_le_length (by simp only [List.length_take, List.length_drop]; omega)]
  simp

theorem rest_chunk_ok (b : buffer_info) (result : Nat) (h : chunk_ok b)
    (hr : result < b.length) : chunk_ok (rest_chunk b result) := by
  obtain ⟨h0, -, hcap, hmax⟩ := h
  refine ⟨h0, by simp only [rest_chunk]; omega, ?_, by simp only [rest_chunk]; omega⟩
  simp only [rest_chunk, memmove, List.length_append, List.length_take, List.length_drop]
  omega

theorem take_chunk_bytes (b : buffer_info) (result : Nat) (hr : result ≤ b.length) :
    b.buffer.take result = (chunk_bytes b).take result := by
  simp [chunk_bytes, List.take_take, hr]

/-- The step the loop body makes when `write` succeeds. -/
theorem write_body_accept_cast (s : State) (b : buffer_info) (rest : List buffer_info)
    (sig : Bool) (room : Nat) (hb : s.buffers = b :: rest) :
    write_body s ⟨sig, .accept room⟩ = .next { deliver sig s with
      stdout_written := s.stdout_written ++ b.buffer.take (sys_write room b.length)
      buffers := if ((sys_write room b.length : Nat) : Int) < to_ssize b.length
        then rest_chunk b (sys_write room b.length) :: rest else rest
      total_buffered := (s.total_buffered + SIZE_MOD - sys_write room b.length) % SIZE_MOD
      write_count := (s.write_count + 1) % SIZE_MOD } := by
  simp [write_body, hb, rest_chunk]

/-- The step the loop body makes when `write` succeeds, the front chunk
being well formed: the comparison of line 162 is that of the two lengths. -/
theorem write_body_accept (s : State) (b : buffer_info) (rest : List buffer_info)
    (sig : Bool) (room : Nat) (hb : s.buffers = b :: rest) (hok : chunk_ok b) :
    write_body s ⟨sig, .accept room⟩ = .next { deliver sig s with
      stdout_written := s.stdout_written ++ b.buffer.take (sys_write room b.length)
      buffers := if sys_write room b.length < b.length
        then rest_chunk b (sys_write room b.length) :: rest else rest
      total_buffered := (s.total_buffered + SIZE_MOD - sys_write room b.length) % SIZE_MOD
      write_count := (s.write_count + 1) % SIZE_MOD } := by
  rw [write_body_accept_cast s b rest sig room hb, to_ssize_eq _ hok.2.2.2]
  simp only [Nat.cast_lt]

/-- The step the loop body makes when `write` fails. -/
theorem write_body_error (s : State) (b : buffer_info) (rest : List buffer_info)
    (sig : Bool) (errno : Nat) (hb : s.buffers = b :: rest) :
    write_body s ⟨sig, .error errno⟩ =
      if errno = EAGAIN ∨ errno = EWOULDBLOCK ∨ errno = EINTR then .stop (deliver sig s)
      else .exit 1 (deliver sig s) := by
  simp [write_body, hb]

theorem write_body_stream (s : State) (w : Sys WriteResult) (h : StreamInv s) :
    StreamInv (write_body s w).state := by
  cases hb : s.buffers with
  | nil => simpa [write_body, hb, LoopStep.state] using h
  | cons b rest =>
    obtain ⟨sig, res⟩ := w
    have hd : StreamInv (deliver sig s) := h.stream_of_eq (by simp) (by simp) (by simp)
    cases res with
    | error errno =>
      rw [write_body_error s b rest sig errno hb]
      split <;> exact hd
    | accept room =>
      have hbok : chunk_ok b := h.chunks b (by simp [hb])
      rw [write_body_accept s b rest sig room hb hbok]
      have hrest : ∀ c ∈ rest, chunk_ok c := fun c hc => h.chunks c (by simp [hb, hc])
      have hst := h.stream
      rw [hb, queued_bytes_cons] at hst
      have hle : sys_write room b.length ≤ b.length := by simp [sys_write]
      generalize sys_write room b.length = result at hle
      simp only [LoopStep.state]
      by_cases hr : result < b.length
      · refine ⟨?_, ?_⟩
        · intro c hc
          simp only [hr, if_true, List.mem_cons] at hc
          rcases hc with hc | hc
          · rw [hc]; exact rest_chunk_ok b result hbok hr
          · exact hrest c hc
        · simp only [hr, if_true, queued_bytes_cons, deliver_stdin]
          rw [rest_chunk_bytes b result hbok hr, take_chunk_bytes b result hle, ← hst]
          simp only [List.append_assoc]
          rw [← List.append_assoc ((chunk_bytes b).take result), List.take_append_drop]
      · refine ⟨?_, ?_⟩
        · intro c hc
          simp only [hr, if_false] at hc
          exact hrest c hc
        · simp only [hr, if_false, deliver_stdin]
          have : result = b.length := by omega
          rw [this, ← hst]
          simp [chunk_bytes]

theorem write_loop_stream :
    ∀ (ws : List (Sys WriteResult)) (s : State), StreamInv s →
      StreamInv (write_loop ws s).state
  | [], s, h => by
    unfold write_loop
    split <;> exact h
  | w :: ws, s, h => by
    have hw := write_body_stream s w h
    unfold write_loop
    split
    · exact h
    · cases hb : write_body s w with
      | next s1 =>
        rw [hb] at hw
        exact write_loop_stream ws s1 hw
      | stop s1 => rw [hb] at hw; exact hw
      | exit code s1 => rw [hb] at hw; exact hw
      | more s1 => rw [hb] at hw; exact hw

theorem write_output_stream (cfg : Config) (s : State) (ws : List (Sys WriteResult))
    (h : StreamInv s) : StreamInv (write_output cfg s ws).state := by
  have hl := write_loop_stream ws s h
  unfold write_output
  split
  · exact h
  · cases hw : write_loop ws s with
    | ret s1 =>
      rw [hw] at hl
      exact StreamInv.stream_of_eq hl rfl rfl rfl
    | exit code s1 => rw [hw] at hl; exact hl
    | more s1 => rw [hw] at hl; exact hl

/-! ### Sequences of calls keep the invariants -/

theorem init_state_stream : StreamInv init_state :=
  ⟨by simp [init_state, enable_output, enable_input, globals0],
   by simp [init_state, enable_output, enable_input, globals0, queued_bytes]⟩

theorem step_stream (cfg : Config) (s : State) (c : Call) (h : StreamInv s) :
    StreamInv (step cfg s c).state := by
  cases c with
  | read_input e => exact read_input_stream cfg s e h
  | write_output revents ws => exact write_output_stream cfg _ ws (h.stream_of_eq rfl rfl rfl)

theorem run_stream (cfg : Config) :
    ∀ (cs : List Call) (s : State), StreamInv s → StreamInv (run cfg cs s).state
  | [], _, h => h
  | c :: cs, s, h => by
    have hs := step_stream cfg s c h
    unfold run
    cases hc : step cfg s c with
    | ret s1 => rw [hc] at hs; exact run_stream cfg cs s1 hs
    | exit code s1 => rw [hc] at hs; exact hs
    | more s1 => rw [hc] at hs; exact hs

/-! ### The counter `total_buffered` -/

/-- The unsigned subtraction of `size_t` is the subtraction of natural
numbers when it does not wrap. -/
theorem usub_eq (a b : Nat) (hb : b ≤ a) (ha : a < SIZE_MOD) :
    (a + SIZE_MOD - b) % SIZE_MOD = a - b := by
  have h : a + SIZE_MOD - b = (a - b) + SIZE_MOD := by omega
  rw [h, Nat.add_mod_right, Nat.mod_eq_of_lt (by omega)]

theorem to_read_eq (cfg : Config) (s : State) (hmq : cfg.max_queue < SIZE_MOD)
    (hb : s.total_buffered ≤ cfg.max_queue) :
    to_read cfg s = min cfg.read_size (cfg.max_queue - s.total_buffered) := by
  unfold to_read
  rw [usub_eq _ _ hb hmq]

theorem read_positive_count (cfg : Config) (ok : Bool) (buff : buffer_info)
    (bytes : List Byte) (s : State) (hmq : cfg.max_queue < SIZE_MOD) (h : CountInv cfg s)
    (h0 : buff.offset = 0) (hlen : bytes.length ≤ cfg.max_queue - s.total_buffered) :
    CountInv cfg (read_positive cfg ok buff bytes s).state := by
  have hb := h.bounded
  have hc := h.counted
  have hsum : (s.total_buffered + bytes.length) % SIZE_MOD
      = queued_length (s.buffers ++ [new_chunk buff bytes]) := by
    rw [Nat.mod_eq_of_lt (by omega), queued_length_append, hc]
    simp [queued_length, new_chunk, h0]
  have hle : (s.total_buffered + bytes.length) % SIZE_MOD ≤ cfg.max_queue := by
    rw [Nat.mod_eq_of_lt (by omega)]
    omega
  rcases read_positive_cases cfg ok buff bytes s with ⟨-, hr⟩ | ⟨bs, hsp, hr⟩
  · rw [hr]
    exact ⟨hsum, hle⟩
  · rw [hr]
    have hq := (shrink_pass_queued cfg ok _ bs hsp).2.1
    refine ⟨?_, hle⟩
    simp only [Outcome.state, check_input_block, enable_input, enable_output]
    rw [hq]
    exact hsum

theorem read_retry_count (cfg : Config) (count : Nat) (ok : Bool) (buff : buffer_info)
    (hmq : cfg.max_queue < SIZE_MOD) (h0 : buff.offset = 0) :
    ∀ (rs : List (Sys ReadResult)) (s : State), CountInv cfg s →
      count ≤ cfg.max_queue - s.total_buffered →
      CountInv cfg (read_retry cfg count ok buff rs s).state
  | [], s, h, _ => h
  | r :: rs, s, h, hcount => by
    have hd : CountInv cfg (deliver r.sig s) := h.count_of_eq (by simp) (by simp)
    unfold read_retry
    cases hres : r.res with
    | error errno =>
      simp only
      split
      · split
        · exact hd
        · exact read_retry_count cfg count ok buff hmq h0 rs _ hd (by simpa using hcount)
      · exact hd.count_of_eq rfl rfl
    | data avail =>
      simp only
      split
      · exact hd.count_of_eq rfl rfl
      · refine read_positive_count cfg ok buff _ _ hmq hd h0 ?_
        have := sys_read_length_le avail count
        simp only [deliver_total_buffered]
        omega

theorem read_input_count (cfg : Config) (s : State) (e : ReadEnv)
    (hmq : cfg.max_queue < SIZE_MOD) (h : CountInv cfg s) :
    CountInv cfg (read_input cfg s e).state := by
  unfold read_input
  simp only
  split
  · refine read_retry_count cfg _ _ _ hmq rfl _ s h ?_
    rw [to_read_eq cfg s hmq h.bounded]
    omega
  · exact h

theorem write_body_count (cfg : Config) (s : State) (w : Sys WriteResult)
    (hmq : cfg.max_queue < SIZE_MOD) (hs : StreamInv s) (h : CountInv cfg s) :
    CountInv cfg (write_body s w).state := by
  cases hb : s.buffers with
  | nil => simpa [write_body, hb, LoopStep.state] using h
  | cons b rest =>
    obtain ⟨sig, res⟩ := w
    have hd : CountInv cfg (deliver sig s) := h.count_of_eq (by simp) (by simp)
    cases res with
    | error errno =>
      rw [write_body_error s b rest sig errno hb]
      split <;> exact hd
    | accept room =>
      rw [write_body_accept s b rest sig room hb (hs.chunks b (by simp [hb]))]
      obtain ⟨hb0, -, -, -⟩ := hs.chunks b (by simp [hb])
      have hbd := h.bounded
      have hc := h.counted
      rw [hb, queued_length_cons, hb0] at hc
      have hle : sys_write room b.length ≤ b.length := by simp [sys_write]
      generalize sys_write room b.length = result at hle
      simp only [LoopStep.state]
      have hsub := usub_eq s.total_buffered result (by omega) (by omega)
      refine ⟨?_, ?_⟩
      · simp only [hsub]
        by_cases hr : result < b.length
        · simp only [hr, if_true, queued_length_cons, rest_chunk, hb0]
          omega
        · simp only [hr, if_false]
          omega
      · simp only [hsub]
        omega

theorem write_loop_count (cfg : Config) (hmq : cfg.max_queue < SIZE_MOD) :
    ∀ (ws : List (Sys WriteResult)) (s : State), StreamInv s → CountInv cfg s →
      CountInv cfg (write_loop ws s).state
  | [], s, _, h => by
    unfold write_loop
    split <;> exact h
  | w :: ws, s, hs, h => by
    have hw := write_body_count cfg s w hmq hs h
    have hw2 := write_body_stream s w hs
    unfold write_loop
    split
    · exact h
    · cases hb : write_body s w with
      | next s1 =>
        rw [hb] at hw hw2
        exact write_loop_count cfg hmq ws s1 hw2 hw
      | stop s1 => rw [hb] at hw; exact hw
      | exit code s1 => rw [hb] at hw; exact hw
      | more s1 => rw [hb] at hw; exact hw

theorem write_output_count (cfg : Config) (s : State) (ws : List (Sys WriteResult))
    (hmq : cfg.max_queue < SIZE_MOD) (hs : StreamInv s) (h : CountInv cfg s) :
    CountInv cfg (write_output cfg s ws).state := by
  have hl := write_loop_count cfg hmq ws s hs h
  unfold write_output
  split
  · exact h
  · cases hw : write_loop ws s with
    | ret s1 =>
      rw [hw] at hl
      exact CountInv.count_of_eq hl rfl rfl
    | exit code s1 => rw [hw] at hl; exact hl
    | more s1 => rw [hw] at hl; exact hl

theorem init_state_count (cfg : Config) : CountInv cfg init_state :=
  ⟨by simp [init_state, enable_output, enable_input, globals0, queued_length],
   by simp [init_state, enable_output, enable_input, globals0]⟩

theorem step_count (cfg : Config) (s : State) (c : Call) (hmq : cfg.max_queue < SIZE_MOD)
    (hs : StreamInv s) (h : CountInv cfg s) : CountInv cfg (step cfg s c).state := by
  cases c with
  | read_input e => exact read_input_count cfg s e hmq h
  | write_output revents ws =>
    exact write_output_count cfg _ ws hmq (hs.stream_of_eq rfl rfl rfl) (h.count_of_eq rfl rfl)

theorem run_count (cfg : Config) (hmq : cfg.max_queue < SIZE_MOD) :
    ∀ (cs : List Call) (s : State), StreamInv s → CountInv cfg s →
      CountInv cfg (run cfg cs s).state
  | [], _, _, h => h
  | c :: cs, s, hs, h => by
    have h1 := step_count cfg s c hmq hs h
    have h2 := step_stream cfg s c hs
    unfold run
    cases hc : step cfg s c with
    | ret s1 => rw [hc] at h1 h2; exact run_count cfg hmq cs s1 h2 h1
    | exit code s1 => rw [hc] at h1; exact h1
    | more s1 => rw [hc] at h1; exact h1

/-! ### The interest flags -/

theorem check_input_block_events (cfg : Config) (s : State) :
    (check_input_block cfg s).poll_input.events
      = POLLERR ||| (if input_interest cfg s then POLLIN else 0) := by
  have hq : (!(s.no_more_input || decide (s.total_buffered ≥ cfg.max_queue)))
      = (!s.no_more_input && decide (s.total_buffered < cfg.max_queue)) := by
    by_cases h : s.total_buffered < cfg.max_queue
    · simp [h, Nat.not_le.mpr h]
    · simp [h, Nat.not_lt.mp h]
  simp only [check_input_block, enable_input, input_interest, hq]

theorem FlowInv.flow_of_eq {cfg : Config} {s t : State} (h : FlowInv cfg s)
    (h1 : t.poll_input = s.poll_input) (h2 : t.poll_output = s.poll_output)
    (h3 : t.no_more_input = s.no_more_input) (h4 : t.total_buffered = s.total_buffered)
    (h5 : t.buffers = s.buffers) : FlowInv cfg t :=
  ⟨by simpa only [input_interest, h1, h3, h4] using h.input,
   by simpa only [output_interest, h2, h5] using h.output⟩

/-- After `check_input_block` the input flag is right; the output flag is
right when it was and the queue is the same. -/
theorem flow_after_input_check (cfg : Config) (s t : State) (h : FlowInv cfg s)
    (h2 : t.poll_output = s.poll_output) (h5 : t.buffers = s.buffers) :
    FlowInv cfg (check_input_block cfg t) :=
  ⟨check_input_block_events cfg t,
   by simpa only [output_interest, check_input_block, enable_input, h2, h5] using h.output⟩

theorem read_positive_flow (cfg : Config) (ok : Bool) (buff : buffer_info)
    (bytes : List Byte) (s s1 : State) (h : read_positive cfg ok buff bytes s = .ret s1) :
    FlowInv cfg s1 := by
  rcases read_positive_cases cfg ok buff bytes s with ⟨-, hr⟩ | ⟨bs, hsp, hr⟩
  · rw [hr] at h; cases h
  · rw [hr] at h
    injection h with h
    subst h
    refine ⟨check_input_block_events cfg _, ?_⟩
    have hlen := (shrink_pass_queued cfg ok _ bs hsp).2.2
    have hne : bs ≠ [] := by
      intro hnil
      simp [hnil] at hlen
    cases bs with
    | nil => exact absurd rfl hne
    | cons b bs => simp [check_input_block, enable_input, enable_output, output_interest]

theorem read_retry_flow (cfg : Config) (count : Nat) (ok : Bool) (buff : buffer_info) :
    ∀ (rs : List (Sys ReadResult)) (s s1 : State), FlowInv cfg s →
      read_retry cfg count ok buff rs s = .ret s1 → FlowInv cfg s1
  | [], s, s1, _, hr => by simp [read_retry] at hr
  | r :: rs, s, s1, h, hr => by
    have hd : FlowInv cfg (deliver r.sig s) :=
      h.flow_of_eq (by simp) (by simp) (by simp) (by simp) (by simp)
    unfold read_retry at hr
    cases hres : r.res with
    | error errno =>
      rw [hres] at hr
      simp only at hr
      split at hr
      · split at hr
        · injection hr with hr
          rw [← hr]; exact hd
        · exact read_retry_flow cfg count ok buff rs _ s1 hd hr
      · injection hr with hr
        rw [← hr]
        exact flow_after_input_check cfg _ _ hd rfl rfl
    | data avail =>
      rw [hres] at hr
      simp only at hr
      split at hr
      · injection hr with hr
        rw [← hr]
        exact flow_after_input_check cfg _ _ hd rfl rfl
      · exact read_positive_flow cfg ok buff _ _ s1 hr

theorem read_input_flow (cfg : Config) (s s1 : State) (e : ReadEnv) (h : FlowInv cfg s)
    (hr : read_input cfg s e = .ret s1) : FlowInv cfg s1 := by
  unfold read_input at hr
  simp only at hr
  split at hr
  · exact read_retry_flow cfg _ _ _ _ s s1 h hr
  · cases hr

/-- When `write_output` returns, both flags have just been recomputed. -/
theorem write_output_ret (cfg : Config) (s s1 : State) (ws : List (Sys WriteResult))
    (hr : write_output cfg s ws = .ret s1) :
    ∃ s2, write_loop ws s = .ret s2 ∧ s1 = check_output_block (check_input_block cfg s2) := by
  unfold write_output at hr
  split at hr
  · cases hr
  · cases hw : write_loop ws s with
    | ret s2 =>
      rw [hw] at hr
      injection hr with hr
      exact ⟨s2, rfl, hr.symm⟩
    | exit code s2 => rw [hw] at hr; cases hr
    | more s2 => rw [hw] at hr; cases hr

theorem write_output_flow (cfg : Config) (s s1 : State) (ws : List (Sys WriteResult))
    (hr : write_output cfg s ws = .ret s1) : FlowInv cfg s1 := by
  obtain ⟨s2, -, rfl⟩ := write_output_ret cfg s s1 ws hr
  refine ⟨?_, ?_⟩
  · have := check_input_block_events cfg s2
    simpa only [check_output_block, enable_output, check_input_block, enable_input,
      input_interest] using this
  · simp [check_output_block, enable_output, check_input_block, enable_input, output_interest]

theorem init_state_flow (cfg : Config) (hpos : 0 < cfg.max_queue) : FlowInv cfg init_state :=
  ⟨by simp [init_state, enable_output, enable_input, globals0, input_interest, hpos],
   by simp [init_state, enable_output, enable_input, globals0, output_interest]⟩

theorem step_flow (cfg : Config) (s s1 : State) (c : Call) (h : FlowInv cfg s)
    (hr : step cfg s c = .ret s1) : FlowInv cfg s1 := by
  cases c with
  | read_input e => exact read_input_flow cfg s s1 e h hr
  | write_output revents ws => exact write_output_flow cfg _ s1 ws hr

theorem run_flow (cfg : Config) :
    ∀ (cs : List Call) (s s1 : State), FlowInv cfg s → run cfg cs s = .ret s1 →
      FlowInv cfg s1
  | [], s, s1, h, hr => by
    simp only [run] at hr
    injection hr with hr
    rw [← hr]; exact h
  | c :: cs, s, s1, h, hr => by
    unfold run at hr
    cases hc : step cfg s c with
    | ret s2 =>
      rw [hc] at hr
      exact run_flow cfg cs s2 s1 (step_flow cfg s s2 c h hc) hr
    | exit code s2 => rw [hc] at hr; cases hr
    | more s2 => rw [hc] at hr; cases hr

theorem requests_pollin (b : Bool) :
    requests (POLLERR ||| (if b then POLLIN else 0)) POLLIN ↔ b = true := by
  cases b <;> simp only [requests] <;> decide

theorem requests_pollout (b : Bool) :
    requests (POLLERR ||| (if b then POLLOUT else 0)) POLLOUT ↔ b = true := by
  cases b <;> simp only [requests] <;> decide

/-! ### One successful read -/

/-- A `read_input` call whose first answer from `read` delivers at least
one byte goes through the branch `bread > 0`. -/
theorem read_input_data (cfg : Config) (s : State) (e : ReadEnv) (sig : Bool)
    (avail : List Byte) (more : List (Sys ReadResult)) (hm : e.malloc_ok = true)
    (hreads : e.reads = ⟨sig, .data avail⟩ :: more)
    (hk : 0 < (sys_read avail (to_read cfg s)).length) :
    read_input cfg s e = read_positive cfg e.realloc_ok
      { buffer := malloc (to_read cfg s), length := 0, offset := 0 }
      (sys_read avail (to_read cfg s)) (deliver sig s) := by
  have hne : (sys_read avail (to_read cfg s)).length ≠ 0 := by omega
  have hne2 : ¬ sys_read avail (to_read cfg s) = [] := by
    intro h
    simp [h] at hne
  simp [read_input, hm, hreads, read_retry, hne2]

theorem shrink_pass_realloc_ok (cfg : Config) (bs : List buffer_info) :
    ∃ cs, shrink_pass cfg true bs = some cs := by
  unfold shrink_pass
  split
  · simp only
    split
    · split
      · exact ⟨_, rfl⟩
      · exact ⟨_, rfl⟩
    · exact ⟨_, rfl⟩
  · exact ⟨_, rfl⟩

/-! ### What one call writes and reads -/

/-- One pass of the drain loop writes some bytes `out`, and
`total_buffered` goes down by their number. -/
theorem write_body_out (cfg : Config) (s : State) (w : Sys WriteResult)
    (hmq : cfg.max_queue < SIZE_MOD) (hs : StreamInv s) (h : CountInv cfg s) :
    ∃ out, (write_body s w).state.stdout_written = s.stdout_written ++ out ∧
      (write_body s w).state.total_buffered + out.length = s.total_buffered ∧
      (write_body s w).state.no_more_input = s.no_more_input := by
  cases hb : s.buffers with
  | nil => exact ⟨[], by simp [write_body, hb, LoopStep.state]⟩
  | cons b rest =>
    obtain ⟨sig, res⟩ := w
    cases res with
    | error errno =>
      rw [write_body_error s b rest sig errno hb]
      refine ⟨[], ?_⟩
      split <;> simp [LoopStep.state]
    | accept room =>
      rw [write_body_accept s b rest sig room hb (hs.chunks b (by simp [hb]))]
      obtain ⟨hb0, -, hcap, -⟩ := hs.chunks b (by simp [hb])
      have hbd := h.bounded
      have hc := h.counted
      rw [hb, queued_length_cons, hb0] at hc
      have hle : sys_write room b.length ≤ b.length := by simp [sys_write]
      generalize sys_write room b.length = result at hle
      refine ⟨b.buffer.take result, rfl, ?_, by simp [LoopStep.state]⟩
      simp only [LoopStep.state, List.length_take]
      rw [usub_eq _ _ (by omega) (by omega)]
      omega

theorem write_loop_out (cfg : Config) (hmq : cfg.max_queue < SIZE_MOD) :
    ∀ (ws : List (Sys WriteResult)) (s : State), StreamInv s → CountInv cfg s →
      ∃ out, (write_loop ws s).state.stdout_written = s.stdout_written ++ out ∧
        (write_loop ws s).state.total_buffered + out.length = s.total_buffered ∧
        (write_loop ws s).state.no_more_input = s.no_more_input
  | [], s, _, _ => by
    refine ⟨[], ?_⟩
    unfold write_loop
    split <;> simp [Outcome.state]
  | w :: ws, s, hs, h => by
    have h1 := write_body_count cfg s w hmq hs h
    have h2 := write_body_stream s w hs
    obtain ⟨out, ho1, ho2, ho3⟩ := write_body_out cfg s w hmq hs h
    unfold write_loop
    split
    · exact ⟨[], by simp [Outcome.state]⟩
    · cases hb : write_body s w with
      | next s1 =>
        rw [hb] at h1 h2 ho1 ho2 ho3
        simp only [LoopStep.state] at h1 h2 ho1 ho2 ho3
        obtain ⟨out2, hp1, hp2, hp3⟩ := write_loop_out cfg hmq ws s1 h2 h1
        refine ⟨out ++ out2, ?_, ?_, ?_⟩
        · simp only [hp1, ho1, List.append_assoc]
        · simp only [List.length_append]; omega
        · simp only [hp3, ho3]
      | stop s1 => rw [hb] at ho1 ho2 ho3; exact ⟨out, ho1, ho2, ho3⟩
      | exit code s1 => rw [hb] at ho1 ho2 ho3; exact ⟨out, ho1, ho2, ho3⟩
      | more s1 => rw [hb] at ho1 ho2 ho3; exact ⟨out, ho1, ho2, ho3⟩

theorem write_output_out (cfg : Config) (hmq : cfg.max_queue < SIZE_MOD) (s : State)
    (ws : List (Sys WriteResult)) (hs : StreamInv s) (h : CountInv cfg s) :
    ∃ out, (write_output cfg s ws).state.stdout_written = s.stdout_written ++ out ∧
      (write_output cfg s ws).state.total_buffered + out.length = s.total_buffered ∧
      (write_output cfg s ws).state.no_more_input = s.no_more_input := by
  obtain ⟨out, h1, h2, h3⟩ := write_loop_out cfg hmq ws s hs h
  unfold write_output
  split
  · exact ⟨[], by simp [Outcome.state]⟩
  · cases hw : write_loop ws s with
    | ret s1 =>
      rw [hw] at h1 h2 h3
      exact ⟨out, h1, h2, h3⟩
    | exit code s1 => rw [hw] at h1 h2 h3; exact ⟨out, h1, h2, h3⟩
    | more s1 => rw [hw] at h1 h2 h3; exact ⟨out, h1, h2, h3⟩

/-- A `read` asked for no byte delivers none: the queue and its counter stay
as they are. -/
theorem read_retry_zero (cfg : Config) (ok : Bool) (buff : buffer_info) :
    ∀ (rs : List (Sys ReadResult)) (s : State),
      (read_retry cfg 0 ok buff rs s).state.total_buffered = s.total_buffered ∧
      (read_retry cfg 0 ok buff rs s).state.buffers = s.buffers
  | [], s => ⟨rfl, rfl⟩
  | r :: rs, s => by
    unfold read_retry
    cases hres : r.res with
    | error errno =>
      simp only
      split
      · split
        · simp [Outcome.state]
        · have := read_retry_zero cfg ok buff rs (deliver r.sig s)
          simpa using this
      · simp [Outcome.state, check_input_block, enable_input]
    | data avail =>
      simp [sys_read, Outcome.state, check_input_block, enable_input]

theorem read_input_zero (cfg : Config) (s : State) (e : ReadEnv) (h : to_read cfg s = 0) :
    (read_input cfg s e).state.total_buffered = s.total_buffered ∧
    (read_input cfg s e).state.buffers = s.buffers := by
  unfold read_input
  simp only [h]
  split
  · exact read_retry_zero cfg _ _ _ s
  · exact ⟨rfl, rfl⟩

/-- With the flags of the Flow Controller, a full queue asks for no input. -/
theorem flow_full (cfg : Config) (s : State) (h : FlowInv cfg s)
    (hfull : s.total_buffered = cfg.max_queue) : s.poll_input.events &&& POLLIN = 0 := by
  rw [h.input]
  simp only [input_interest, hfull, Nat.lt_irrefl, decide_False, Bool.and_false]
  decide

/-! ### The stop flag and the event loop -/

theorem deliver_force_exit (sig : Bool) (s : State) (h : s.force_exit = true) :
    (deliver sig s).force_exit = true := by
  cases sig <;> simp [deliver, sighandler, h]

theorem read_positive_force_exit (cfg : Config) (ok : Bool) (buff : buffer_info)
    (bytes : List Byte) (s : State) :
    (read_positive cfg ok buff bytes s).state.force_exit = s.force_exit := by
  rcases read_positive_cases cfg ok buff bytes s with ⟨-, hr⟩ | ⟨bs, -, hr⟩ <;>
    rw [hr] <;> rfl

theorem read_retry_force_exit (cfg : Config) (count : Nat) (ok : Bool) (buff : buffer_info) :
    ∀ (rs : List (Sys ReadResult)) (s : State), s.force_exit = true →
      (read_retry cfg count ok buff rs s).state.force_exit = true
  | [], _, h => h
  | r :: rs, s, h => by
    have hd := deliver_force_exit r.sig s h
    unfold read_retry
    cases hres : r.res with
    | error errno =>
      simp only
      split
      · exact hd
      · exact hd
    | data avail =>
      simp only
      split
      · exact hd
      · rw [read_positive_force_exit]; exact hd

theorem read_input_force_exit (cfg : Config) (s : State) (e : ReadEnv)
    (h : s.force_exit = true) : (read_input cfg s e).state.force_exit = true := by
  unfold read_input
  simp only
  split
  · exact read_retry_force_exit cfg _ _ _ _ s h
  · exact h

theorem write_body_force_exit (s : State) (w : Sys WriteResult)
    (h : s.force_exit = true) : (write_body s w).state.force_exit = true := by
  cases hb : s.buffers with
  | nil => simpa [write_body, hb, LoopStep.state] using h
  | cons b rest =>
    obtain ⟨sig, res⟩ := w
    have hd := deliver_force_exit sig s h
    cases res with
    | error errno =>
      rw [write_body_error s b rest sig errno hb]
      split <;> exact hd
    | accept room =>
      rw [write_body_accept_cast s b rest sig room hb]
      exact hd

theorem write_loop_force_exit :
    ∀ (ws : List (Sys WriteResult)) (s : State), s.force_exit = true →
      (write_loop ws s).state.force_exit = true
  | [], s, h => by
    unfold write_loop
    split <;> exact h
  | w :: ws, s, h => by
    have hw := write_body_force_exit s w h
    unfold write_loop
    split
    · exact h
    · cases hb : write_body s w with
      | next s1 => rw [hb] at hw; exact write_loop_force_exit ws s1 hw
      | stop s1 => rw [hb] at hw; exact hw
      | exit code s1 => rw [hb] at hw; exact hw
      | more s1 => rw [hb] at hw; exact hw

theorem write_output_force_exit (cfg : Config) (s : State) (ws : List (Sys WriteResult))
    (h : s.force_exit = true) : (write_output cfg s ws).state.force_exit = true := by
  have hl := write_loop_force_exit ws s h
  unfold write_output
  split
  · exact h
  · cases hw : write_loop ws s with
    | ret s1 => rw [hw] at hl; exact hl
    | exit code s1 => rw [hw] at hl; exact hl
    | more s1 => rw [hw] at hl; exact hl

theorem input_stage_force_exit (cfg : Config) (it : Iter) (g : State)
    (h : g.force_exit = true) : (input_stage cfg it g).state.force_exit = true := by
  unfold input_stage
  split
  · exact read_input_force_exit cfg g it.rd h
  · exact h

theorem output_stage_force_exit (cfg : Config) (it : Iter) (g : State)
    (h : g.force_exit = true) : (output_stage cfg it g).state.force_exit = true := by
  unfold output_stage
  split
  · exact write_output_force_exit cfg g it.wr h
  · exact h

theorem progress_block_g (n : Int) (t : timeval) (m : MainState) :
    (progress_block n t m).g = m.g := by
  unfold progress_block
  simp only
  split <;> split <;> rfl

theorem polled_force_exit (cfg : Config) (it : Iter) (rin rout : Nat) (m : MainState) :
    (polled cfg it rin rout m).g.force_exit = m.g.force_exit := by
  unfold polled
  simp only
  split
  · rw [progress_block_g]
  · rfl

/-- How a pass through the stages that goes on to the next pass, or leaves
the loop, came about: both stages returned, and the loop is left exactly
when the input is over and the queue empty. -/
theorem stages_cases (cfg : Config) (it : Iter) (m m1 : MainState)
    (h : stages cfg it m = .next m1 ∨ stages cfg it m = .stop m1) :
    ∃ g1, input_stage cfg it m.g = .ret g1 ∧ output_stage cfg it g1 = .ret m1.g ∧
      (stages cfg it m = .stop m1 ↔ (m1.g.no_more_input = true ∧ m1.g.buffers = [])) := by
  unfold stages at h ⊢
  cases hin : input_stage cfg it m.g with
  | exit code g => rw [hin] at h; rcases h with h | h <;> cases h
  | more g => rw [hin] at h; rcases h with h | h <;> cases h
  | ret g1 =>
    rw [hin] at h
    simp only at h ⊢
    cases hout : output_stage cfg it g1 with
    | exit code g => rw [hout] at h; rcases h with h | h <;> cases h
    | more g => rw [hout] at h; rcases h with h | h <;> cases h
    | ret g2 =>
      rw [hout] at h
      simp only at h ⊢
      by_cases hc : (g2.no_more_input && g2.buffers.isEmpty) = true
      · simp only [hc, if_true] at h ⊢
        rcases h with h | h
        · cases h
        · injection h with h
          subst h
          simp only [Bool.and_eq_true, List.isEmpty_iff] at hc
          exact ⟨g1, rfl, hout, by simp [hc]⟩
      · simp only [hc, if_false] at h ⊢
        rcases h with h | h
        · injection h with h
          subst h
          simp only [Bool.and_eq_true, List.isEmpty_iff] at hc
          exact ⟨g1, rfl, hout, by simp [hc]⟩
        · cases h

theorem stages_force_exit (cfg : Config) (it : Iter) (m : MainState)
    (h : m.g.force_exit = true) : (stages cfg it m).state.g.force_exit = true := by
  have h1 := input_stage_force_exit cfg it m.g h
  unfold stages
  cases hin : input_stage cfg it m.g with
  | exit code g => rw [hin] at h1; exact h1
  | more g => rw [hin] at h1; exact h1
  | ret g1 =>
    rw [hin] at h1
    have h2 := output_stage_force_exit cfg it g1 h1
    simp only
    cases hout : output_stage cfg it g1 with
    | exit code g => rw [hout] at h2; exact h2
    | more g => rw [hout] at h2; exact h2
    | ret g2 =>
      rw [hout] at h2
      simp only
      split <;> exact h2

/-- A pass that takes the loop on, or leaves it, either had a failing
`poll` or went through both stages. -/
theorem loop_body_cases (cfg : Config) (m : MainState) (it : Iter) (m1 : MainState)
    (h : loop_body cfg m it = .next m1 ∨ loop_body cfg m it = .stop m1) :
    (∃ errno, it.poll.res = .fail errno ∧
      (loop_body cfg m it = .stop m1 → errno ≠ EINTR)) ∨
    (loop_body cfg m it = .stop m1 ↔ (m1.g.no_more_input = true ∧ m1.g.buffers = [])) := by
  cases hres : it.poll.res with
  | fail errno =>
    left
    refine ⟨errno, rfl, ?_⟩
    intro hs he
    simp [loop_body, hres, he] at hs
  | ready rin rout =>
    right
    have hb : loop_body cfg m it
        = stages cfg it (polled cfg it rin rout { m with g := deliver it.poll.sig m.g }) := by
      simp only [loop_body, hres]
    rw [hb] at h ⊢
    obtain ⟨g1, -, -, hiff⟩ := stages_cases cfg it _ m1 h
    exact hiff

/-- A pass keeps the stop flag set. -/
theorem loop_body_force_exit (cfg : Config) (m : MainState) (it : Iter)
    (h : (deliver it.poll.sig m.g).force_exit = true) :
    (loop_body cfg m it).state.g.force_exit = true := by
  cases hres : it.poll.res with
  | fail errno =>
    simp only [loop_body, hres]
    split <;> exact h
  | ready rin rout =>
    simp only [loop_body, hres]
    exact stages_force_exit cfg it _ (by rw [polled_force_exit]; exact h)

/-- When the event loop ends and no `poll` has failed with an errno other
than EINTR, the input is over and the queue empty, or the stop flag is
set. -/
theorem event_loop_ret (cfg : Config) :
    ∀ (its : List Iter) (m0 m : MainState), event_loop cfg its m0 = .ret m →
      (∀ it ∈ its, poll_fatal it = false) →
      (m.g.no_more_input = true ∧ m.g.buffers = []) ∨ m.g.force_exit = true
  | [], m0, m, h, _ => by
    unfold event_loop at h
    split at h
    · rename_i hf
      injection h with h
      rw [← h]
      exact Or.inr hf
    · cases h
  | it :: its, m0, m, h, hp => by
    unfold event_loop at h
    split at h
    · rename_i hf
      injection h with h
      rw [← h]
      exact Or.inr hf
    · cases hb : loop_body cfg m0 it with
      | next m1 =>
        rw [hb] at h
        exact event_loop_ret cfg its m1 m h (fun i hi => hp i (List.mem_cons_of_mem _ hi))
      | stop m1 =>
        rw [hb] at h
        injection h with h
        subst h
        rcases loop_body_cases cfg m0 it m1 (Or.inr hb) with ⟨errno, hres, hne⟩ | hiff
        · have hfat := hp it (List.mem_cons_self _ _)
          simp [poll_fatal, hres, hne hb] at hfat
        · exact Or.inl (hiff.mp hb)
      | exit code m1 => rw [hb] at h; cases h
      | more m1 => rw [hb] at h; cases h

/-- With the stop flag set the event loop is left at once. -/
theorem event_loop_stopped (cfg : Config) (its : List Iter) (m : MainState)
    (h : m.g.force_exit = true) : event_loop cfg its m = .ret m := by
  cases its <;> simp [event_loop, h]

/-- The globals `main` returns with are those the event loop ends with. -/
theorem main_ret (cfg : Config) (env : MainEnv) (m : MainState)
    (h : main cfg env = .ret m) :
    ∃ m1, event_loop cfg env.iters (main_init cfg env.start) = .ret m1 ∧ m.g = m1.g := by
  unfold main at h
  split at h
  · cases h
  · split at h
    · cases hl : event_loop cfg env.iters (main_init cfg env.start) with
      | ret m1 =>
        rw [hl] at h
        injection h with h
        refine ⟨m1, rfl, ?_⟩
        rw [← h]
        split <;> rfl
      | exit code m1 => rw [hl] at h; cases h
      | more m1 => rw [hl] at h; cases h
    · cases h

/-! ## The claims -/

/-- C1: whatever calls of `read_input` and `write_output` are made from the
initial state and whatever the system calls answer, the bytes written so
far followed by the contents of the queued chunks, front to back, are the
bytes read so far; with an empty queue the output is the input consumed. -/
theorem C1_written_then_queued_is_read (cfg : Config) (calls : List Call) :
    (run cfg calls init_state).state.stdout_written
        ++ queued_bytes (run cfg calls init_state).state.buffers
      = (run cfg calls init_state).state.stdin_consumed ∧
    ((run cfg calls init_state).state.buffers = [] →
      (run cfg calls init_state).state.stdout_written
        = (run cfg calls init_state).state.stdin_consumed) := by
  have h := (run_stream cfg calls init_state init_state_stream).stream
  refine ⟨h, fun hnil => ?_⟩
  rw [hnil] at h
  simpa [queued_bytes] using h

/-- C1 on a run that drains the queue: all three bytes read are written. -/
theorem C1_written_then_queued_is_read_witness :
    (run demo_cfg demo_calls_drained init_state).state.buffers = [] ∧
    (run demo_cfg demo_calls_drained init_state).state.stdin_consumed = [1, 2, 3] ∧
    (run demo_cfg demo_calls_drained init_state).state.stdout_written
      = (run demo_cfg demo_calls_drained init_state).state.stdin_consumed :=
  ⟨by decide, by decide,
   (C1_written_then_queued_is_read demo_cfg demo_calls_drained).2 (by decide)⟩

/-- C2: in every state reached from the initial state by calls of
`read_input` and `write_output`, `total_buffered` is the sum of
`length - offset` over the chunks in `buffers`, and every `offset` is 0. -/
theorem C2_total_buffered_is_queued_sum (cfg : Config) (hmq : cfg.max_queue < SIZE_MOD)
    (calls : List Call) :
    (run cfg calls init_state).state.total_buffered
      = ((run cfg calls init_state).state.buffers.map (fun b => b.length - b.offset)).sum ∧
    ∀ b ∈ (run cfg calls init_state).state.buffers, b.offset = 0 :=
  ⟨(run_count cfg hmq calls init_state init_state_stream (init_state_count cfg)).counted,
   fun b hb => ((run_stream cfg calls init_state init_state_stream).chunks b hb).1⟩

/-- C2 on a run that leaves chunks of 1 and 2 bytes queued. -/
theorem C2_total_buffered_is_queued_sum_witness :
    demo_cfg.max_queue < SIZE_MOD ∧
    (run demo_cfg demo_calls init_state).state.buffers.map (fun b => b.length) = [1, 2] ∧
    (run demo_cfg demo_calls init_state).state.total_buffered
      = ((run demo_cfg demo_calls init_state).state.buffers.map
          (fun b => b.length - b.offset)).sum :=
  ⟨by decide, by decide,
   (C2_total_buffered_is_queued_sum demo_cfg (by decide) demo_calls).1⟩

/-- C3: in every state reached from the initial state, `total_buffered` is
at most `max_queue`, so that the length `read_input` asks for is
`min(read_size, max_queue - total_buffered)` without wrap-around, and no
answer of `read` to that request takes `total_buffered` past `max_queue`. -/
theorem C3_reads_capped_to_headroom (cfg : Config) (hmq : cfg.max_queue < SIZE_MOD)
    (calls : List Call) :
    (run cfg calls init_state).state.total_buffered ≤ cfg.max_queue ∧
    to_read cfg (run cfg calls init_state).state
      = min cfg.read_size (cfg.max_queue - (run cfg calls init_state).state.total_buffered) ∧
    ∀ e : ReadEnv,
      (read_input cfg (run cfg calls init_state).state e).state.total_buffered
        ≤ cfg.max_queue := by
  have hc := run_count cfg hmq calls init_state init_state_stream (init_state_count cfg)
  exact ⟨hc.bounded, to_read_eq cfg _ hmq hc.bounded,
    fun e => (read_input_count cfg _ e hmq hc).bounded⟩

/-- C3 on a run that has 3 bytes buffered under a ceiling of 8: the next
read asks for 4 bytes, the read unit. -/
theorem C3_reads_capped_to_headroom_witness :
    demo_cfg.max_queue < SIZE_MOD ∧
    (run demo_cfg demo_calls init_state).state.total_buffered = 3 ∧
    to_read demo_cfg (run demo_cfg demo_calls init_state).state
      = min demo_cfg.read_size
          (demo_cfg.max_queue - (run demo_cfg demo_calls init_state).state.total_buffered) :=
  ⟨by decide, by decide,
   (C3_reads_capped_to_headroom demo_cfg (by decide) demo_calls).2.1⟩

/-- C4: a `read_input` call whose `read` delivers `k > 0` bytes appends one
chunk of length `k` holding those bytes at the back of `buffers`: the queue
is one chunk longer, the lengths and contents of the chunks queued before
are the same (also when the shrink pass runs), `total_buffered` grows by
`k`, and `total_read` and `read_count` grow by `k` and by 1 in `uint64_t`
arithmetic, which is exactly `k` and 1 unless the 64-bit counter wraps.  The
call returns unless `realloc` fails in the shrink pass. -/
theorem C4_read_appends_one_chunk (cfg : Config) (s : State) (e : ReadEnv) (sig : Bool)
    (avail : List Byte) (more : List (Sys ReadResult))
    (hmq : cfg.max_queue < SIZE_MOD) (hb : s.total_buffered ≤ cfg.max_queue)
    (hm : e.malloc_ok = true) (hreads : e.reads = ⟨sig, .data avail⟩ :: more)
    (hk : 0 < (sys_read avail (to_read cfg s)).length) :
    (read_input cfg s e).state.buffers.length = s.buffers.length + 1 ∧
    (read_input cfg s e).state.buffers.map (fun b => b.length)
      = s.buffers.map (fun b => b.length) ++ [(sys_read avail (to_read cfg s)).length] ∧
    (read_input cfg s e).state.buffers.map chunk_bytes
      = s.buffers.map chunk_bytes ++ [sys_read avail (to_read cfg s)] ∧
    (read_input cfg s e).state.total_buffered
      = s.total_buffered + (sys_read avail (to_read cfg s)).length ∧
    (read_input cfg s e).state.total_read
      = (s.total_read + (sys_read avail (to_read cfg s)).length) % SIZE_MOD ∧
    (s.total_read + (sys_read avail (to_read cfg s)).length < SIZE_MOD →
      (read_input cfg s e).state.total_read
        = s.total_read + (sys_read avail (to_read cfg s)).length) ∧
    (read_input cfg s e).state.read_count = (s.read_count + 1) % SIZE_MOD ∧
    (s.read_count + 1 < SIZE_MOD →
      (read_input cfg s e).state.read_count = s.read_count + 1) ∧
    (read_input cfg s e).state.stdin_consumed
      = s.stdin_consumed ++ sys_read avail (to_read cfg s) ∧
    (e.realloc_ok = true →
      read_input cfg s e = .ret (read_input cfg s e).state) := by
  rw [read_input_data cfg s e sig avail more hm hreads hk]
  have hle := sys_read_length_le avail (to_read cfg s)
  have htr := to_read_eq cfg s hmq hb
  have hlen : (sys_read avail (to_read cfg s)).length ≤ cfg.max_queue - s.total_buffered := by
    omega
  clear hle htr
  generalize sys_read avail (to_read cfg s) = bytes at hk hlen
  generalize ({ buffer := malloc (to_read cfg s), length := 0, offset := 0 } : buffer_info)
    = buff
  have hadd : (s.total_buffered + bytes.length) % SIZE_MOD
      = s.total_buffered + bytes.length := Nat.mod_eq_of_lt (by omega)
  rcases read_positive_cases cfg e.realloc_ok buff bytes (deliver sig s) with
    ⟨hsp, hr⟩ | ⟨bs, hsp, hr⟩
  · rw [hr]
    simp only [Outcome.state, deliver_buffers, deliver_total_buffered, deliver_total_read,
      deliver_read_count, deliver_stdin, List.length_append, List.length_singleton,
      List.map_append, List.map_singleton, new_chunk_bytes, hadd, true_and]
    refine ⟨by simp [new_chunk], fun h => Nat.mod_eq_of_lt h, fun h => Nat.mod_eq_of_lt h, ?_⟩
    intro hok
    rw [hok, deliver_buffers] at hsp
    obtain ⟨cs, hcs⟩ := shrink_pass_realloc_ok cfg (s.buffers ++ [new_chunk buff bytes])
    rw [hcs] at hsp
    cases hsp
  · rw [hr]
    obtain ⟨h1, -, h3⟩ := shrink_pass_map cfg _ _ bs hsp
    have h4 := (shrink_pass_queued cfg _ _ bs hsp).2.2
    simp only [Outcome.state, check_input_block, enable_input, enable_output, h1, h3, h4,
      deliver_buffers, deliver_total_buffered, deliver_total_read,
      deliver_read_count, deliver_stdin, List.length_append, List.length_singleton,
      List.map_append, List.map_singleton, new_chunk_bytes, hadd, true_and, implies_true,
      and_true]
    exact ⟨by simp [new_chunk], fun h => Nat.mod_eq_of_lt h, fun h => Nat.mod_eq_of_lt h⟩

/-- C4 on the sixteenth read of a run of one-byte reads: the shrink pass
reallocates the block of the front chunk from 4 bytes to 1, and the lengths
and contents of the fifteen chunks queued before are as they were. -/
theorem C4_read_appends_one_chunk_witness :
    (shrink_state.buffers.map (fun b => b.buffer.length)).head? = some 4 ∧
    ((read_input shrink_cfg shrink_state shrink_read).state.buffers.map
      (fun b => b.buffer.length)).head? = some 1 ∧
    (read_input shrink_cfg shrink_state shrink_read).state.buffers.length = 16 ∧
    (read_input shrink_cfg shrink_state shrink_read).state.buffers.map chunk_bytes
      = shrink_state.buffers.map chunk_bytes ++ [[8, 9]] ∧
    (read_input shrink_cfg shrink_state shrink_read).state.total_buffered = 17 :=
  ⟨by decide, by decide,
   (C4_read_appends_one_chunk shrink_cfg shrink_state shrink_read false [8, 9] []
      (by decide) (by decide) rfl rfl (by decide)).1,
   (C4_read_appends_one_chunk shrink_cfg shrink_state shrink_read false [8, 9] []
      (by decide) (by decide) rfl rfl (by decide)).2.2.1,
   (C4_read_appends_one_chunk shrink_cfg shrink_state shrink_read false [8, 9] []
      (by decide) (by decide) rfl rfl (by decide)).2.2.2.1⟩

/-- C5: with `max_queue > 0`, in the initial state and after every
`read_input` or `write_output` call that returns, the interest flags are
those of the Flow Controller: the input entry asks for POLLIN exactly when
`no_more_input` is false and `total_buffered < max_queue`, the output entry
asks for POLLOUT exactly when `buffers` is not empty. -/
theorem C5_interest_flags_follow_flow_controller (cfg : Config) (hpos : 0 < cfg.max_queue)
    (calls : List Call) (s : State) (hrun : run cfg calls init_state = .ret s) :
    s.poll_input.events = POLLERR ||| (if input_interest cfg s then POLLIN else 0) ∧
    s.poll_output.events = POLLERR ||| (if output_interest s then POLLOUT else 0) ∧
    (s.poll_input.events &&& POLLIN ≠ 0 ↔
      (s.no_more_input = false ∧ s.total_buffered < cfg.max_queue)) ∧
    (s.poll_output.events &&& POLLOUT ≠ 0 ↔ s.buffers ≠ []) := by
  have h := run_flow cfg calls init_state s (init_state_flow cfg hpos) hrun
  refine ⟨h.input, h.output, ?_, ?_⟩
  · rw [h.input]
    exact (requests_pollin _).trans (by simp [input_interest])
  · rw [h.output]
    exact (requests_pollout _).trans (by simp [output_interest])

/-- C5 on a run that ends with 3 bytes queued under a ceiling of 8: POLLIN
and POLLOUT are both asked for. -/
theorem C5_interest_flags_follow_flow_controller_witness :
    0 < demo_cfg.max_queue ∧
    run demo_cfg demo_calls init_state
      = .ret (run demo_cfg demo_calls init_state).state ∧
    (run demo_cfg demo_calls init_state).state.poll_input.events = POLLERR ||| POLLIN ∧
    ((run demo_cfg demo_calls init_state).state.poll_output.events &&& POLLOUT ≠ 0 ↔
      (run demo_cfg demo_calls init_state).state.buffers ≠ []) :=
  ⟨by decide, by decide, by decide,
   (C5_interest_flags_follow_flow_controller demo_cfg (by decide) demo_calls _
      (by decide)).2.2.2⟩

/-- C6: when a write of the drain loop takes `r` bytes, fewer than the
`length` of the front chunk, that chunk stays at the front, its length goes
down by `r`, its contents are its former contents without the first `r`
bytes (which are the bytes written), `total_buffered` goes down by `r`, and
the chunks behind it are unchanged. -/
theorem C6_short_write_trims_front_chunk (s : State) (b : buffer_info)
    (rest : List buffer_info) (sig : Bool) (r : Nat)
    (hq : s.buffers = b :: rest) (hok : chunk_ok b)
    (hcount : s.total_buffered = queued_length s.buffers) (hsz : s.total_buffered < SIZE_MOD)
    (hlt : r < b.length) :
    ∃ s1 b1, write_body s ⟨sig, .accept r⟩ = .next s1 ∧
      s1.buffers = b1 :: rest ∧
      b1.length + r = b.length ∧
      chunk_bytes b1 = (chunk_bytes b).drop r ∧
      s1.total_buffered + r = s.total_buffered ∧
      s1.stdout_written = s.stdout_written ++ (chunk_bytes b).take r := by
  have hres : sys_write r b.length = r := by simp only [sys_write]; omega
  rw [hq, queued_length_cons, hok.1] at hcount
  refine ⟨_, rest_chunk b r, write_body_accept s b rest sig r hq hok, ?_, ?_, ?_, ?_, ?_⟩
  · simp [hres, hlt]
  · simp only [rest_chunk]; omega
  · exact rest_chunk_bytes b r hok hlt
  · simp only [hres]
    rw [usub_eq _ _ (by omega) hsz]
    omega
  · simp only [hres, take_chunk_bytes b r (by omega)]

/-- C6 on the state after one 3-byte read: a write that takes 2 bytes
leaves a front chunk holding the third byte. -/
theorem C6_short_write_trims_front_chunk_witness :
    ∃ s1 b1, write_body one_read_state ⟨false, .accept 2⟩ = .next s1 ∧
      s1.buffers = b1 :: [] ∧
      b1.length + 2 = 3 ∧
      chunk_bytes b1 = ([1, 2, 3] : List Byte).drop 2 ∧
      s1.total_buffered + 2 = one_read_state.total_buffered ∧
      s1.stdout_written = one_read_state.stdout_written ++ ([1, 2, 3] : List Byte).take 2 :=
  C6_short_write_trims_front_chunk one_read_state ⟨[1, 2, 3, 0], 3, 0⟩ [] false 2
    (by decide) (by decide) (by decide) (by decide) (by decide)

/-- C7: when a write of the drain loop takes the whole front chunk, the
chunk is removed from `buffers`, the chunk behind it becoming the front,
and `total_buffered` goes down by the chunk's length; and whenever
`write_output` returns with `buffers` empty, the output entry no longer
asks for POLLOUT. -/
theorem C7_full_write_pops_front_chunk :
    (∀ (s : State) (b : buffer_info) (rest : List buffer_info) (sig : Bool) (room : Nat),
      s.buffers = b :: rest → chunk_ok b →
      s.total_buffered = queued_length s.buffers → s.total_buffered < SIZE_MOD →
      sys_write room b.length = b.length →
      ∃ s1, write_body s ⟨sig, .accept room⟩ = .next s1 ∧
        s1.buffers = rest ∧
        s1.total_buffered + b.length = s.total_buffered ∧
        s1.stdout_written = s.stdout_written ++ chunk_bytes b) ∧
    (∀ (cfg : Config) (s s1 : State) (ws : List (Sys WriteResult)),
      write_output cfg s ws = .ret s1 → s1.buffers = [] →
      s1.poll_output.events &&& POLLOUT = 0) := by
  constructor
  · intro s b rest sig room hq hok hcount hsz hres
    rw [hq, queued_length_cons, hok.1] at hcount
    refine ⟨_, write_body_accept s b rest sig room hq hok, ?_, ?_, ?_⟩
    · simp [hres]
    · simp only [hres]
      rw [usub_eq _ _ (by omega) hsz]
      omega
    · simp only [hres, chunk_bytes]
  · intro cfg s s1 ws hr hnil
    have h := (write_output_flow cfg s s1 ws hr).output
    rw [h]
    simp only [output_interest, hnil]
    decide

/-- C7 on the state after one 3-byte read: a write that takes all 3 bytes
empties the queue, and `write_output` then returns with POLLOUT interest
off. -/
theorem C7_full_write_pops_front_chunk_witness :
    (∃ s1, write_body one_read_state ⟨false, .accept 3⟩ = .next s1 ∧
      s1.buffers = [] ∧
      s1.total_buffered + 3 = one_read_state.total_buffered ∧
      s1.stdout_written = one_read_state.stdout_written ++ chunk_bytes ⟨[1, 2, 3, 0], 3, 0⟩) ∧
    (write_output demo_cfg one_read_ready [⟨false, .accept 3⟩]).state.poll_output.events
      &&& POLLOUT = 0 :=
  ⟨C7_full_write_pops_front_chunk.1 one_read_state ⟨[1, 2, 3, 0], 3, 0⟩ [] false 3
      (by decide) (by decide) (by decide) (by decide) (by decide),
   C7_full_write_pops_front_chunk.2 demo_cfg one_read_ready _ [⟨false, .accept 3⟩]
      (by decide) (by decide)⟩

/-- C8: in a state reached from the initial state in which `total_buffered`
is exactly `max_queue`, the input entry does not ask for POLLIN; a
`read_input` call made in that state leaves `total_buffered` at `max_queue`
and POLLIN off; a `write_output` call that writes nothing leaves POLLIN
off, and one that writes at least one byte turns POLLIN on again unless
`no_more_input` is set. -/
theorem C8_backpressure (cfg : Config) (hmq : cfg.max_queue < SIZE_MOD)
    (hpos : 0 < cfg.max_queue) (calls : List Call) (s : State)
    (hrun : run cfg calls init_state = .ret s) (hfull : s.total_buffered = cfg.max_queue) :
    s.poll_input.events &&& POLLIN = 0 ∧
    (∀ (e : ReadEnv) (s1 : State), read_input cfg s e = .ret s1 →
      s1.total_buffered = cfg.max_queue ∧ s1.poll_input.events &&& POLLIN = 0) ∧
    (∀ (revents : Nat) (ws : List (Sys WriteResult)) (s1 : State),
      step cfg s (.write_output revents ws) = .ret s1 →
      ∃ out, s1.stdout_written = s.stdout_written ++ out ∧
        s1.total_buffered + out.length = cfg.max_queue ∧
        (out = [] → s1.poll_input.events &&& POLLIN = 0) ∧
        (out ≠ [] → s1.no_more_input = false → s1.poll_input.events &&& POLLIN ≠ 0)) := by
  have hs := run_stream cfg calls init_state init_state_stream
  have hc := run_count cfg hmq calls init_state init_state_stream (init_state_count cfg)
  have hf := run_flow cfg calls init_state s (init_state_flow cfg hpos) hrun
  rw [hrun] at hs hc
  simp only [Outcome.state] at hs hc
  refine ⟨flow_full cfg s hf hfull, ?_, ?_⟩
  · intro e s1 hr
    have hz : to_read cfg s = 0 := by
      rw [to_read_eq cfg s hmq hc.bounded, hfull]
      simp
    have h1 := (read_input_zero cfg s e hz).1
    rw [hr] at h1
    simp only [Outcome.state] at h1
    have h2 : s1.total_buffered = cfg.max_queue := by rw [h1, hfull]
    exact ⟨h2, flow_full cfg s1 (read_input_flow cfg s s1 e hf hr) h2⟩
  · intro revents ws s1 hr
    simp only [step] at hr
    obtain ⟨out, h1, h2, h3⟩ := write_output_out cfg hmq _ ws
      (hs.stream_of_eq (t := { s with poll_output := { s.poll_output with revents := revents } })
        rfl rfl rfl)
      (hc.count_of_eq (t := { s with poll_output := { s.poll_output with revents := revents } })
        rfl rfl)
    have hf1 := write_output_flow cfg _ s1 ws hr
    rw [hr] at h1 h2 h3
    simp only [Outcome.state] at h1 h2 h3
    refine ⟨out, h1, by rw [← hfull]; exact h2, ?_, ?_⟩
    · intro hout
      rw [hout] at h2
      exact flow_full cfg s1 hf1 (by simpa [hfull] using h2)
    · intro hout hnmi
      have hlen : 0 < out.length := List.length_pos.mpr hout
      have hlt : s1.total_buffered < cfg.max_queue := by omega
      rw [hf1.input]
      exact (requests_pollin _).mpr (by simp [input_interest, hnmi, hlt])

/-- C8 on the scenario of the specification, ceiling 100 and read unit 50:
after two reads of 50 bytes POLLIN is off; a `write_output` call that
writes 10 bytes turns it on again; and with 99 bytes buffered the next read
asks for 1 byte, after which POLLIN is off. -/
theorem C8_backpressure_witness :
    full_cfg.max_queue < SIZE_MOD ∧ 0 < full_cfg.max_queue ∧
    to_read full_cfg (run full_cfg (brim_calls.take 2) init_state).state = 1 ∧
    (run full_cfg brim_calls init_state).state.poll_input.events &&& POLLIN = 0 ∧
    (run full_cfg full_calls init_state).state.total_buffered = full_cfg.max_queue ∧
    (run full_cfg full_calls init_state).state.poll_input.events &&& POLLIN = 0 ∧
    (step full_cfg (run full_cfg full_calls init_state).state (write_call 10)).state.total_buffered
      = 90 ∧
    ∃ out,
      (step full_cfg (run full_cfg full_calls init_state).state
          (write_call 10)).state.stdout_written
        = (run full_cfg full_calls init_state).state.stdout_written ++ out ∧
      (step full_cfg (run full_cfg full_calls init_state).state
          (write_call 10)).state.total_buffered + out.length = full_cfg.max_queue ∧
      (out = [] →
        (step full_cfg (run full_cfg full_calls init_state).state
          (write_call 10)).state.poll_input.events &&& POLLIN = 0) ∧
      (out ≠ [] →
        (step full_cfg (run full_cfg full_calls init_state).state
          (write_call 10)).state.no_more_input = false →
        (step full_cfg (run full_cfg full_calls init_state).state
          (write_call 10)).state.poll_input.events &&& POLLIN ≠ 0) :=
  ⟨by decide, by decide, by decide,
   (C8_backpressure full_cfg (by decide) (by decide) brim_calls _ (by decide) (by decide)).1,
   by decide,
   (C8_backpressure full_cfg (by decide) (by decide) full_calls _ (by decide) (by decide)).1,
   by decide,
   (C8_backpressure full_cfg (by decide) (by decide) full_calls _ (by decide) (by decide)).2.2
      POLLOUT [⟨false, .accept 10⟩, ⟨false, .error EAGAIN⟩] _ (by decide)⟩

/-- C9 fails as stated: three bytes are read, then a signal arrives during
`poll`; `main` returns 0 with `no_more_input` false and the three bytes
still queued. -/
theorem C9_counterexample :
    main demo_cfg stop_env = .ret (main demo_cfg stop_env).state ∧
    (main demo_cfg stop_env).state.g.force_exit = true ∧
    (main demo_cfg stop_env).state.g.no_more_input = false ∧
    (main demo_cfg stop_env).state.g.buffers.map chunk_bytes = [[1, 2, 3]] := by
  decide

/-- C9 as amended: when `main` returns 0 and no `poll` of the run has
failed with an errno other than EINTR, then `no_more_input` is true and
`buffers` is empty, or the stop flag `force_exit` is set. -/
theorem C9_return_zero_after_drain_or_stop (cfg : Config) (env : MainEnv) (m : MainState)
    (hret : main cfg env = .ret m) (hpoll : ∀ it ∈ env.iters, poll_fatal it = false) :
    (m.g.no_more_input = true ∧ m.g.buffers = []) ∨ m.g.force_exit = true := by
  obtain ⟨m1, hl, hg⟩ := main_ret cfg env m hret
  rw [hg]
  exact event_loop_ret cfg env.iters _ m1 hl hpoll

/-- C9 as amended, on a run that reads three bytes, meets the end of the
input and drains the queue: `main` returns 0 with the stop flag unset. -/
theorem C9_return_zero_after_drain_or_stop_witness :
    main demo_cfg drain_env = .ret (main demo_cfg drain_env).state ∧
    (main demo_cfg drain_env).state.g.force_exit = false ∧
    (main demo_cfg drain_env).state.g.stdout_written = [1, 2, 3] ∧
    (((main demo_cfg drain_env).state.g.no_more_input = true ∧
        (main demo_cfg drain_env).state.g.buffers = []) ∨
      (main demo_cfg drain_env).state.g.force_exit = true) :=
  ⟨by decide, by decide, by decide,
   C9_return_zero_after_drain_or_stop demo_cfg drain_env _ (by decide) (by decide)⟩

/-- C10 fails as stated: three bytes are read, then a signal arrives during
`poll`, once; although the output would be writable in the next pass, no
write is attempted after the flag is set, none has failed, and `main`
returns 0 with the three bytes still queued and nothing written. -/
theorem C10_counterexample :
    main demo_cfg stop_writable_env = .ret (main demo_cfg stop_writable_env).state ∧
    (main demo_cfg stop_writable_env).state.g.buffers.map chunk_bytes = [[1, 2, 3]] ∧
    (main demo_cfg stop_writable_env).state.g.write_count = 0 ∧
    (main demo_cfg stop_writable_env).state.g.stdout_written = [] := by
  decide

/-- C10 as amended: when a pass of the event loop during which the stop
flag `force_exit` gets set (as it does when the signal is delivered during
`poll`) goes on to the loop condition, the loop ends there with the state
that pass has left, whatever is queued and whatever the environment would
answer next: no further `poll`, `read` or `write` is made. -/
theorem C10_stop_flag_ends_loop (cfg : Config) (m : MainState) (it : Iter)
    (its : List Iter) (m1 : MainState) (h0 : m.g.force_exit = false)
    (hbody : loop_body cfg m it = .next m1)
    (hsig : it.poll.sig = true ∨ m1.g.force_exit = true) :
    m1.g.force_exit = true ∧
    event_loop cfg (it :: its) m = .ret m1 ∧
    ∀ its2 : List Iter, event_loop cfg its2 m1 = .ret m1 := by
  have hf : m1.g.force_exit = true := by
    rcases hsig with hsig | hsig
    · have h := loop_body_force_exit cfg m it (by simp [hsig, deliver, sighandler])
      rw [hbody] at h
      exact h
    · exact hsig
  refine ⟨hf, ?_, fun its2 => event_loop_stopped cfg its2 m1 hf⟩
  unfold event_loop
  simp only [h0, hbody]
  exact event_loop_stopped cfg its m1 hf

/-- C10 as amended, on the run of the counterexample: the pass in which the
signal arrives leaves the three bytes queued, and the loop ends with them
although the next pass could write. -/
theorem C10_stop_flag_ends_loop_witness :
    after_pass_read.g.force_exit = false ∧
    (loop_body demo_cfg after_pass_read pass_signal).state.g.buffers.map chunk_bytes
      = [[1, 2, 3]] ∧
    (loop_body demo_cfg after_pass_read pass_signal).state.g.force_exit = true ∧
    event_loop demo_cfg (pass_signal :: [pass_write]) after_pass_read
      = .ret (loop_body demo_cfg after_pass_read pass_signal).state ∧
    ∀ its2 : List Iter,
      event_loop demo_cfg its2 (loop_body demo_cfg after_pass_read pass_signal).state
        = .ret (loop_body demo_cfg after_pass_read pass_signal).state :=
  ⟨by decide, by decide,
   C10_stop_flag_ends_loop demo_cfg after_pass_read pass_signal [pass_write] _
      (by decide) (by decide) (Or.inl (by decide))⟩

/-! ### A failing read, a failing write -/

/-- A `read_input` call whose first answer from `read` is a failure other
than EINTR returns with `no_more_input` set and nothing else changed but the
input interest (and the stop flag, when the signal was delivered). -/
theorem read_input_error (cfg : Config) (s : State) (e : ReadEnv) (sig : Bool)
    (errno : Nat) (more : List (Sys ReadResult)) (hm : e.malloc_ok = true)
    (hreads : e.reads = ⟨sig, .error errno⟩ :: more) (hne : errno ≠ EINTR) :
    read_input cfg s e
      = .ret (check_input_block cfg { deliver sig s with no_more_input := true }) := by
  simp [read_input, hm, hreads, read_retry, hne]

/-- C11: when the `read` of `read_input` fails with an errno other than
EINTR, EAGAIN and EWOULDBLOCK, the call returns (the process does not exit)
with `no_more_input` set and POLLIN interest off; `buffers`,
`total_buffered`, the counters, the output interest and the two streams are
as they were. -/
theorem C11_read_error_ends_input (cfg : Config) (s : State) (e : ReadEnv) (sig : Bool)
    (errno : Nat) (more : List (Sys ReadResult)) (hm : e.malloc_ok = true)
    (hreads : e.reads = ⟨sig, .error errno⟩ :: more)
    (herr : errno ≠ EINTR ∧ errno ≠ EAGAIN ∧ errno ≠ EWOULDBLOCK) :
    ∃ s1, read_input cfg s e = .ret s1 ∧
      s1.no_more_input = true ∧
      s1.poll_input.events &&& POLLIN = 0 ∧
      s1.buffers = s.buffers ∧
      s1.total_buffered = s.total_buffered ∧
      s1.total_read = s.total_read ∧
      s1.read_count = s.read_count ∧
      s1.write_count = s.write_count ∧
      s1.poll_output = s.poll_output ∧
      s1.stdin_consumed = s.stdin_consumed ∧
      s1.stdout_written = s.stdout_written := by
  refine ⟨_, read_input_error cfg s e sig errno more hm hreads herr.1, ?_⟩
  refine ⟨by simp [check_input_block, enable_input], ?_,
    by simp [check_input_block, enable_input], by simp [check_input_block, enable_input],
    by simp [check_input_block, enable_input], by simp [check_input_block, enable_input],
    by simp [check_input_block, enable_input], by simp [check_input_block, enable_input],
    by simp [check_input_block, enable_input], by simp [check_input_block, enable_input]⟩
  rw [check_input_block_events]
  simp only [input_interest, Bool.not_true, Bool.false_and]
  decide

/-- C11 on the state after one 3-byte read, `read` failing with EIO: the
three bytes stay queued and POLLOUT stays on. -/
theorem C11_read_error_ends_input_witness :
    ∃ s1, read_input demo_cfg one_read_state (failing_read EIO) = .ret s1 ∧
      s1.no_more_input = true ∧
      s1.poll_input.events &&& POLLIN = 0 ∧
      s1.buffers = one_read_state.buffers ∧
      s1.total_buffered = one_read_state.total_buffered ∧
      s1.total_read = one_read_state.total_read ∧
      s1.read_count = one_read_state.read_count ∧
      s1.write_count = one_read_state.write_count ∧
      s1.poll_output = one_read_state.poll_output ∧
      s1.stdin_consumed = one_read_state.stdin_consumed ∧
      s1.stdout_written = one_read_state.stdout_written :=
  C11_read_error_ends_input demo_cfg one_read_state (failing_read EIO) false EIO []
    rfl rfl (by decide)

/-- C12, the code at the failing input: in the initial state (input open,
queue empty, POLLIN on) `read` fails with EAGAIN; `read_input` returns with
`no_more_input` set and POLLIN off, where the claim has no state change. -/
theorem C12_read_eagain_sets_no_more_input :
    init_state.no_more_input = false ∧
    init_state.poll_input.events &&& POLLIN ≠ 0 ∧
    read_input demo_cfg init_state (failing_read EAGAIN)
      = .ret (read_input demo_cfg init_state (failing_read EAGAIN)).state ∧
    (read_input demo_cfg init_state (failing_read EAGAIN)).state.no_more_input = true ∧
    (read_input demo_cfg init_state (failing_read EAGAIN)).state.poll_input.events
      &&& POLLIN = 0 ∧
    (read_input demo_cfg init_state (failing_read EWOULDBLOCK)).state.no_more_input = true := by
  decide

/-- C14: in `write_output` called with POLLOUT reported and a chunk queued,
a `write` that fails with EAGAIN, EWOULDBLOCK or EINTR ends the drain loop
and the call returns, `buffers` (the front chunk included),
`total_buffered`, `write_count` and the output stream being as before that
write; a `write` that fails with any other errno ends the process with exit
code 1.  The same holds in the drain loop at whatever pass the failing
write comes. -/
theorem C14_write_failure (cfg : Config) (s : State) (b : buffer_info)
    (rest : List buffer_info) (sig : Bool) (errno : Nat) (ws : List (Sys WriteResult))
    (hq : s.buffers = b :: rest) :
    (errno = EAGAIN ∨ errno = EWOULDBLOCK ∨ errno = EINTR →
      write_loop (⟨sig, .error errno⟩ :: ws) s = .ret (deliver sig s) ∧
      (s.poll_output.revents &&& POLLOUT ≠ 0 →
        ∃ s1, write_output cfg s (⟨sig, .error errno⟩ :: ws) = .ret s1 ∧
          s1.buffers = b :: rest ∧
          s1.total_buffered = s.total_buffered ∧
          s1.write_count = s.write_count ∧
          s1.stdout_written = s.stdout_written)) ∧
    (¬ (errno = EAGAIN ∨ errno = EWOULDBLOCK ∨ errno = EINTR) →
      write_loop (⟨sig, .error errno⟩ :: ws) s = .exit 1 (deliver sig s) ∧
      (s.poll_output.revents &&& POLLOUT ≠ 0 →
        write_output cfg s (⟨sig, .error errno⟩ :: ws) = .exit 1 (deliver sig s))) := by
  have hne : s.buffers.isEmpty = false := by simp [hq]
  have hbody := write_body_error s b rest sig errno hq
  constructor
  · intro herr
    rw [if_pos herr] at hbody
    have hloop : write_loop (⟨sig, .error errno⟩ :: ws) s = .ret (deliver sig s) := by
      simp [write_loop, hne, hbody]
    refine ⟨hloop, fun hpoll => ?_⟩
    refine ⟨check_output_block (check_input_block cfg (deliver sig s)), ?_, ?_, ?_, ?_, ?_⟩
    · simp [write_output, hpoll, hloop]
    · simp [check_output_block, enable_output, check_input_block, enable_input, hq]
    · simp [check_output_block, enable_output, check_input_block, enable_input]
    · simp [check_output_block, enable_output, check_input_block, enable_input]
    · simp [check_output_block, enable_output, check_input_block, enable_input]
  · intro herr
    rw [if_neg herr] at hbody
    have hloop : write_loop (⟨sig, .error errno⟩ :: ws) s = .exit 1 (deliver sig s) := by
      simp [write_loop, hne, hbody]
    exact ⟨hloop, fun hpoll => by simp [write_output, hpoll, hloop]⟩

/-- C14 on the state after one 3-byte read with POLLOUT reported: EAGAIN
leaves the chunk queued, EIO ends the process with exit code 1. -/
theorem C14_write_failure_witness :
    (∃ s1, write_output demo_cfg one_read_ready [⟨false, .error EAGAIN⟩] = .ret s1 ∧
      s1.buffers = ⟨[1, 2, 3, 0], 3, 0⟩ :: [] ∧
      s1.total_buffered = one_read_ready.total_buffered ∧
      s1.write_count = one_read_ready.write_count ∧
      s1.stdout_written = one_read_ready.stdout_written) ∧
    write_output demo_cfg one_read_ready [⟨false, .error EIO⟩]
      = .exit 1 (deliver false one_read_ready) :=
  ⟨((C14_write_failure demo_cfg one_read_ready ⟨[1, 2, 3, 0], 3, 0⟩ [] false EAGAIN []
      (by decide)).1 (by decide)).2 (by decide),
   ((C14_write_failure demo_cfg one_read_ready ⟨[1, 2, 3, 0], 3, 0⟩ [] false EIO []
      (by decide)).2 (by decide)).2 (by decide)⟩

/-! ### The drain loop after a short write -/

/-- When no `write` fails, the drain loop returns only with the queue
empty. -/
theorem write_loop_ret_empty :
    ∀ (ws : List (Sys WriteResult)) (s s1 : State),
      (∀ w ∈ ws, ∃ room, w.res = .accept room) → write_loop ws s = .ret s1 →
      s1.buffers = []
  | [], s, s1, _, h => by
    unfold write_loop at h
    split at h
    · rename_i he
      injection h with h
      rw [← h]
      exact List.isEmpty_iff.mp he
    · cases h
  | w :: ws, s, s1, hall, h => by
    unfold write_loop at h
    split at h
    · rename_i he
      injection h with h
      rw [← h]
      exact List.isEmpty_iff.mp he
    · rename_i he
      obtain ⟨sig, res⟩ := w
      obtain ⟨room, hroom⟩ := hall ⟨sig, res⟩ (List.mem_cons_self _ _)
      simp only at hroom
      subst hroom
      cases hb : s.buffers with
      | nil => simp [hb] at he
      | cons b rest =>
        rw [write_body_accept_cast s b rest sig room hb] at h
        exact write_loop_ret_empty ws _ s1
          (fun w hw => hall w (List.mem_cons_of_mem _ hw)) h

/-- C16 fails as stated: with a 3-byte chunk queued, a first `write` takes 2
bytes and the same `write_output` call issues a second `write`, which takes
the third byte; with no second answer the loop is still running. -/
theorem C16_counterexample :
    one_read_ready.write_count = 0 ∧
    write_output demo_cfg one_read_ready [⟨false, .accept 2⟩, ⟨false, .accept 1⟩]
      = .ret (write_output demo_cfg one_read_ready
          [⟨false, .accept 2⟩, ⟨false, .accept 1⟩]).state ∧
    (write_output demo_cfg one_read_ready
      [⟨false, .accept 2⟩, ⟨false, .accept 1⟩]).state.write_count = 2 ∧
    (write_output demo_cfg one_read_ready
      [⟨false, .accept 2⟩, ⟨false, .accept 1⟩]).state.stdout_written = [1, 2, 3] ∧
    write_output demo_cfg one_read_ready [⟨false, .accept 2⟩]
      = .more (write_output demo_cfg one_read_ready [⟨false, .accept 2⟩]).state := by
  decide

/-- C16 as amended: a `write` that takes fewer bytes than the front chunk
holds does not end the drain loop: the chunk is trimmed, stays at the
front, and the loop goes on with the next answer of `write`; the loop
returns only when the queue is empty or a `write` has failed. -/
theorem C16_short_write_continues (s : State) (b : buffer_info) (rest : List buffer_info)
    (sig : Bool) (r : Nat) (hq : s.buffers = b :: rest) (hok : chunk_ok b)
    (hlt : r < b.length) :
    ∃ s1, write_body s ⟨sig, .accept r⟩ = .next s1 ∧
      s1.buffers = rest_chunk b r :: rest ∧
      (∀ ws, write_loop (⟨sig, .accept r⟩ :: ws) s = write_loop ws s1) ∧
      write_loop [] s1 = .more s1 ∧
      (∀ ws s2, (∀ w ∈ ws, ∃ room, w.res = .accept room) →
        write_loop (⟨sig, .accept r⟩ :: ws) s = .ret s2 → s2.buffers = []) := by
  have hres : sys_write r b.length = r := by simp only [sys_write]; omega
  have hbody := write_body_accept s b rest sig r hq hok
  simp only [hres, hlt, if_true] at hbody
  have hne : s.buffers.isEmpty = false := by simp [hq]
  refine ⟨_, hbody, rfl, ?_, ?_, ?_⟩
  · intro ws
    simp [write_loop, hne, hbody]
  · simp [write_loop]
  · intro ws s2 hall h
    refine write_loop_ret_empty (⟨sig, .accept r⟩ :: ws) s s2 ?_ h
    intro w hw
    rcases List.mem_cons.mp hw with hw | hw
    · exact ⟨r, by rw [hw]⟩
    · exact hall w hw

/-- C16 as amended, on the state after one 3-byte read: after a `write` of
2 bytes the loop goes on with the one byte left at the front. -/
theorem C16_short_write_continues_witness :
    ∃ s1, write_body one_read_ready ⟨false, .accept 2⟩ = .next s1 ∧
      s1.buffers = rest_chunk ⟨[1, 2, 3, 0], 3, 0⟩ 2 :: [] ∧
      (∀ ws, write_loop (⟨false, .accept 2⟩ :: ws) one_read_ready = write_loop ws s1) ∧
      write_loop [] s1 = .more s1 ∧
      (∀ ws s2, (∀ w ∈ ws, ∃ room, w.res = .accept room) →
        write_loop (⟨false, .accept 2⟩ :: ws) one_read_ready = .ret s2 → s2.buffers = []) :=
  C16_short_write_continues one_read_ready ⟨[1, 2, 3, 0], 3, 0⟩ [] false 2
    (by decide) (by decide) (by decide)

/-! ### The shrink pass and the timeout -/

/-- C17 fails as stated: with read unit 4 and sixteen chunks queued after
the read, the chunk at index 0 has length 2, which is not less than half of
4, and its block is reallocated from 4 bytes to 2. -/
theorem C17_counterexample :
    (half_state.buffers.map (fun b => (b.length, b.buffer.length))).head? = some (2, 4) ∧
    ¬ (2 < shrink_cfg.read_size / 2) ∧ ¬ (2 * 2 < shrink_cfg.read_size) ∧
    (read_input shrink_cfg half_state shrink_read).state.buffers.length = 16 ∧
    ((read_input shrink_cfg half_state shrink_read).state.buffers.map
      (fun b => (b.length, b.buffer.length))).head? = some (2, 2) := by
  decide

/-- C17 as amended: the queue `read_input` leaves after a successful read
is the queue with the new chunk after the shrink pass.  With fewer than 16
chunks the pass changes nothing.  With 16 or more, the index `size - 16` is
valid, and the chunk there has its block reallocated to its length exactly
when its length is at most `read_size / 2` (integer division), `realloc`
succeeding; its length and contents and all other chunks are as they
were. -/
theorem C17_shrink_policy (cfg : Config) (bs : List buffer_info) :
    (∀ (ok : Bool) (buff : buffer_info) (bytes : List Byte) (s : State),
      (read_positive cfg ok buff bytes s).state.buffers
        = (shrink_pass cfg ok (s.buffers ++ [new_chunk buff bytes])).getD
            (s.buffers ++ [new_chunk buff bytes])) ∧
    (bs.length < buffer_count_shrink_threshold → ∀ ok, shrink_pass cfg ok bs = some bs) ∧
    (buffer_count_shrink_threshold ≤ bs.length →
      ∃ b, bs[bs.length - buffer_count_shrink_threshold]? = some b ∧
        shrink_pass cfg true bs
          = some (if b.length ≤ cfg.read_size / 2 then
              bs.set (bs.length - buffer_count_shrink_threshold)
                { b with buffer := realloc b.buffer b.length }
            else bs) ∧
        (b.length ≤ b.buffer.length → (realloc b.buffer b.length).length = b.length) ∧
        chunk_bytes { b with buffer := realloc b.buffer b.length } = chunk_bytes b) := by
  refine ⟨?_, ?_, ?_⟩
  · intro ok buff bytes s
    rcases read_positive_cases cfg ok buff bytes s with ⟨hsp, hr⟩ | ⟨cs, hsp, hr⟩
    · rw [hr, hsp]; rfl
    · rw [hr, hsp]; rfl
  · intro hlt ok
    simp [shrink_pass, Nat.not_le.mpr hlt]
  · intro hle
    have hidx : bs.length - buffer_count_shrink_threshold < bs.length := by
      unfold buffer_count_shrink_threshold at hle ⊢
      omega
    refine ⟨bs[bs.length - buffer_count_shrink_threshold], List.getElem?_eq_getElem hidx,
      ?_, ?_, (realloc_same _).2.2⟩
    · simp only [shrink_pass, ge_iff_le, hle, if_true, List.getElem?_eq_getElem hidx]
      split <;> rfl
    · intro hcap
      simp [realloc, hcap]

/-- C17 as amended, on the sixteenth read of a run of two-byte reads with
read unit 4: the front chunk, of length 2, is reallocated. -/
theorem C17_shrink_policy_witness :
    (half_state.buffers ++ [new_chunk ⟨malloc 4, 0, 0⟩ [8, 9]]).length = 16 ∧
    ∃ b, (half_state.buffers ++ [new_chunk ⟨malloc 4, 0, 0⟩ [8, 9]])[
          (half_state.buffers ++ [new_chunk ⟨malloc 4, 0, 0⟩ [8, 9]]).length
            - buffer_count_shrink_threshold]? = some b ∧
        shrink_pass shrink_cfg true (half_state.buffers ++ [new_chunk ⟨malloc 4, 0, 0⟩ [8, 9]])
          = some (if b.length ≤ shrink_cfg.read_size / 2 then
              (half_state.buffers ++ [new_chunk ⟨malloc 4, 0, 0⟩ [8, 9]]).set
                ((half_state.buffers ++ [new_chunk ⟨malloc 4, 0, 0⟩ [8, 9]]).length
                  - buffer_count_shrink_threshold)
                { b with buffer := realloc b.buffer b.length }
            else half_state.buffers ++ [new_chunk ⟨malloc 4, 0, 0⟩ [8, 9]]) ∧
        (b.length ≤ b.buffer.length → (realloc b.buffer b.length).length = b.length) ∧
        chunk_bytes { b with buffer := realloc b.buffer b.length } = chunk_bytes b :=
  ⟨by decide,
   (C17_shrink_policy shrink_cfg
      (half_state.buffers ++ [new_chunk ⟨malloc 4, 0, 0⟩ [8, 9]])).2.2 (by decide)⟩

/-- C18 fails as stated: reporting is on, `poll` returns 0 and the clock
reads the time of the last report; the timeout computed for the next `poll`
is 2000 ms. -/
theorem C18_counterexample :
    to_ms progress_start.prev_time ≤ to_ms ⟨5, 0⟩ ∧
    (progress_block 0 ⟨5, 0⟩ progress_start).timeout = 2000 := by
  decide

/-- C18 as amended: for every `poll` result `n ≥ 0` and clock readings with
`now ≥ prev`, the timeout computed for the next `poll` lies between 0 and
2000 ms; it is at most 1000 ms when `n > 0`, and above 1000 ms exactly when
`poll` returned 0 less than 1000 ms after the last report. -/
theorem C18_timeout_range (n : Int) (t : timeval) (m : MainState) (hn : 0 ≤ n)
    (hclock : to_ms m.prev_time ≤ to_ms t) :
    0 ≤ (progress_block n t m).timeout ∧
    (progress_block n t m).timeout ≤ 2000 ∧
    (n ≠ 0 → (progress_block n t m).timeout ≤ 1000) ∧
    (1000 < (progress_block n t m).timeout ↔
      (n = 0 ∧ to_ms t - to_ms m.prev_time < 1000)) := by
  unfold progress_block
  simp only
  generalize to_ms t = now at hclock
  generalize to_ms m.prev_time = prev at hclock
  by_cases hrep : n = 0 ∨ now - prev ≥ 1000
  · simp only [hrep, if_true]
    by_cases hbig : now - prev - 1000 ≥ 1000
    · simp only [hbig, if_true]
      omega
    · simp only [hbig, if_false, to_int]
      omega
  · simp only [hrep, if_false]
    by_cases hbig : now - prev ≥ 1000
    · exact absurd (Or.inr hbig) hrep
    · simp only [hbig, if_false, to_int]
      omega

/-- C18 as amended, on a `poll` that reports one descriptor 300 ms after
the last report: the timeout is 700 ms. -/
theorem C18_timeout_range_witness :
    (progress_block 1 ⟨5, 300000⟩ progress_start).timeout = 700 ∧
    0 ≤ (progress_block 1 ⟨5, 300000⟩ progress_start).timeout ∧
    (progress_block 1 ⟨5, 300000⟩ progress_start).timeout ≤ 2000 :=
  ⟨by decide,
   (C18_timeout_range 1 ⟨5, 300000⟩ progress_start (by decide) (by decide)).1,
   (C18_timeout_range 1 ⟨5, 300000⟩ progress_start (by decide) (by decide)).2.1⟩

/-! ### The drain loop ends -/

theorem write_loop_empty (ws : List (Sys WriteResult)) (s : State) (h : s.buffers = []) :
    write_loop ws s = .ret s := by
  cases ws <;> simp [write_loop, h]

/-- A successful `write` of at least one byte takes `total_buffered` down
and keeps the invariants. -/
theorem write_body_decrease (cfg : Config) (hmq : cfg.max_queue < SIZE_MOD) (s : State)
    (hs : StreamInv s) (hc : CountInv cfg s) (sig : Bool) (room : Nat) (hroom : 0 < room)
    (hne : s.buffers ≠ []) :
    ∃ s1, write_body s ⟨sig, .accept room⟩ = .next s1 ∧
      s1.total_buffered < s.total_buffered ∧ StreamInv s1 ∧ CountInv cfg s1 := by
  cases hb : s.buffers with
  | nil => exact absurd hb hne
  | cons b rest =>
    have hok := hs.chunks b (by simp [hb])
    have h1 := write_body_stream s ⟨sig, .accept room⟩ hs
    have h2 := write_body_count cfg s ⟨sig, .accept room⟩ hmq hs hc
    have hbody := write_body_accept s b rest sig room hb hok
    rw [hbody] at h1 h2
    refine ⟨_, hbody, ?_, h1, h2⟩
    obtain ⟨hb0, hbpos, -, -⟩ := hok
    have hcnt := hc.counted
    have hbd := hc.bounded
    rw [hb, queued_length_cons, hb0] at hcnt
    have hres : 0 < sys_write room b.length ∧ sys_write room b.length ≤ b.length := by
      simp only [sys_write]
      omega
    simp only
    rw [usub_eq _ _ (by omega) (by omega)]
    omega

theorem write_loop_take (cfg : Config) (hmq : cfg.max_queue < SIZE_MOD) :
    ∀ (ws : List (Sys WriteResult)) (s : State), StreamInv s → CountInv cfg s →
      (∀ w ∈ ws, w.res ≠ .accept 0) →
      (∀ n, s.total_buffered ≤ n → write_loop ws s = write_loop (ws.take n) s) ∧
      (s.total_buffered ≤ ws.length → ∀ s1, write_loop ws s ≠ .more s1)
  | [], s, hs, hc, _ => by
    refine ⟨by simp, fun hle s1 => ?_⟩
    cases hb : s.buffers with
    | nil => simp [write_loop, hb]
    | cons b rest =>
      obtain ⟨hb0, hbpos, -, -⟩ := hs.chunks b (by simp [hb])
      have hcnt := hc.counted
      rw [hb, queued_length_cons, hb0] at hcnt
      simp only [List.length_nil] at hle
      omega
  | w :: ws, s, hs, hc, hpos => by
    cases hb : s.buffers with
    | nil =>
      refine ⟨fun n _ => ?_, fun _ s1 h => ?_⟩
      · rw [write_loop_empty _ s hb, write_loop_empty _ s hb]
      · rw [write_loop_empty _ s hb] at h
        cases h
    | cons b rest =>
      obtain ⟨hb0, hbpos, -, -⟩ := hs.chunks b (by simp [hb])
      have hcnt := hc.counted
      rw [hb, queued_length_cons, hb0] at hcnt
      have hne : s.buffers.isEmpty = false := by simp [hb]
      obtain ⟨sig, res⟩ := w
      cases res with
      | error errno =>
        have hbody := write_body_error s b rest sig errno hb
        refine ⟨fun n hn => ?_, fun _ s1 => ?_⟩
        · obtain ⟨k, hk⟩ : ∃ k, n = k + 1 := ⟨n - 1, by omega⟩
          rw [hk, List.take_succ_cons]
          by_cases herr : errno = EAGAIN ∨ errno = EWOULDBLOCK ∨ errno = EINTR
          · rw [if_pos herr] at hbody
            simp [write_loop, hne, hbody]
          · rw [if_neg herr] at hbody
            simp [write_loop, hne, hbody]
        · by_cases herr : errno = EAGAIN ∨ errno = EWOULDBLOCK ∨ errno = EINTR
          · rw [if_pos herr] at hbody
            simp [write_loop, hne, hbody]
          · rw [if_neg herr] at hbody
            simp [write_loop, hne, hbody]
      | accept room =>
        have hroom : 0 < room := by
          have h0 := hpos ⟨sig, .accept room⟩ (List.mem_cons_self _ _)
          simp only [ne_eq, WriteResult.accept.injEq] at h0
          omega
        obtain ⟨s1, hbody, hlt, hs1, hc1⟩ :=
          write_body_decrease cfg hmq s hs hc sig room hroom (by simp [hb])
        obtain ⟨ih1, ih2⟩ := write_loop_take cfg hmq ws s1 hs1 hc1
          (fun w hw => hpos w (List.mem_cons_of_mem _ hw))
        refine ⟨fun n hn => ?_, fun hle s2 => ?_⟩
        · obtain ⟨k, hk⟩ : ∃ k, n = k + 1 := ⟨n - 1, by omega⟩
          rw [hk, List.take_succ_cons]
          simp only [write_loop, hne, hbody]
          exact ih1 k (by omega)
        · simp only [write_loop, hne, hbody]
          simp only [List.length_cons] at hle
          exact ih2 (by omega) s2

/-- C20: in a state that satisfies the invariants of C1-C3, with answers of
`write` in which every successful one takes at least one byte, the drain
loop uses at most `total_buffered` answers, and with that many at hand it
ends (it returns, or a failing `write` ends the process); when no `write`
fails it ends with the queue empty; and every successful `write` takes
`total_buffered` strictly down. -/
theorem C20_drain_loop_terminates (cfg : Config) (hmq : cfg.max_queue < SIZE_MOD)
    (s : State) (hs : StreamInv s) (hc : CountInv cfg s) (ws : List (Sys WriteResult))
    (hpos : ∀ w ∈ ws, w.res ≠ .accept 0) :
    write_loop ws s = write_loop (ws.take s.total_buffered) s ∧
    (s.total_buffered ≤ ws.length →
      (∃ s1, write_loop ws s = .ret s1) ∨ (∃ code s1, write_loop ws s = .exit code s1)) ∧
    (s.total_buffered ≤ ws.length → (∀ w ∈ ws, ∃ room, w.res = .accept room) →
      ∃ s1, write_loop ws s = .ret s1 ∧ s1.buffers = []) ∧
    (∀ (sig : Bool) (room : Nat), 0 < room → s.buffers ≠ [] →
      ∃ s1, write_body s ⟨sig, .accept room⟩ = .next s1 ∧
        s1.total_buffered < s.total_buffered) := by
  obtain ⟨h1, h2⟩ := write_loop_take cfg hmq ws s hs hc hpos
  have hend : s.total_buffered ≤ ws.length →
      (∃ s1, write_loop ws s = .ret s1) ∨ (∃ code s1, write_loop ws s = .exit code s1) := by
    intro hle
    cases hw : write_loop ws s with
    | ret s1 => exact Or.inl ⟨s1, rfl⟩
    | exit code s1 => exact Or.inr ⟨code, s1, rfl⟩
    | more s1 => exact absurd hw (h2 hle s1)
  refine ⟨h1 _ (Nat.le_refl _), hend, ?_, ?_⟩
  · intro hle hall
    cases hw : write_loop ws s with
    | ret s1 => exact ⟨s1, rfl, write_loop_ret_empty ws s s1 hall hw⟩
    | exit code s1 =>
      exfalso
      clear h1 h2 hend hle hpos hs hc
      induction ws generalizing s with
      | nil =>
        unfold write_loop at hw
        split at hw <;> cases hw
      | cons w ws ih =>
        unfold write_loop at hw
        split at hw
        · cases hw
        · rename_i he
          obtain ⟨sig, res⟩ := w
          obtain ⟨room, hroom⟩ := hall ⟨sig, res⟩ (List.mem_cons_self _ _)
          simp only at hroom
          subst hroom
          cases hb : s.buffers with
          | nil => simp [hb] at he
          | cons b rest =>
            rw [write_body_accept_cast s b rest sig room hb] at hw
            exact ih _ (fun w hw => hall w (List.mem_cons_of_mem _ hw)) hw
    | more s1 => exact absurd hw (h2 hle s1)
  · intro sig room hroom hne
    obtain ⟨s1, hbody, hlt, -, -⟩ := write_body_decrease cfg hmq s hs hc sig room hroom hne
    exact ⟨s1, hbody, hlt⟩

/-- C20 on the state after one 3-byte read: with writes of one byte each
the loop ends after three of them, the queue empty, whatever answers come
after. -/
theorem C20_drain_loop_terminates_witness :
    demo_cfg.max_queue < SIZE_MOD ∧ one_read_state.total_buffered = 3 ∧
    write_loop (List.replicate 5 ⟨false, .accept 1⟩) one_read_state
      = write_loop ((List.replicate 5 ⟨false, .accept 1⟩).take one_read_state.total_buffered)
          one_read_state ∧
    ∃ s1, write_loop (List.replicate 5 ⟨false, .accept 1⟩) one_read_state = .ret s1 ∧
      s1.buffers = [] :=
  ⟨by decide, by decide,
   (C20_drain_loop_terminates demo_cfg (by decide) one_read_state
      (run_stream demo_cfg _ init_state init_state_stream)
      (run_count demo_cfg (by decide) _ init_state init_state_stream
        (init_state_count demo_cfg))
      (List.replicate 5 ⟨false, .accept 1⟩) (by decide)).1,
   (C20_drain_loop_terminates demo_cfg (by decide) one_read_state
      (run_stream demo_cfg _ init_state init_state_stream)
      (run_count demo_cfg (by decide) _ init_state init_state_stream
        (init_state_count demo_cfg))
      (List.replicate 5 ⟨false, .accept 1⟩) (by decide)).2.2.1 (by decide)
      (by simp [List.mem_replicate])⟩

/-! ### `read_input` with input interest off -/

/-- C13, the code at the failing input: three bytes are read and a
zero-length answer of `read` sets `no_more_input`, POLLIN going off; in the
next pass `poll` reports POLLHUP on the input and `read_input` is called
again: without an answer of `read` the pass waits for one, and with two
bytes ready `read` is made and the bytes are queued. -/
theorem C13_read_input_runs_after_end_of_input :
    after_pass_eof.g.no_more_input = true ∧
    after_pass_eof.g.poll_input.events &&& POLLIN = 0 ∧
    after_pass_eof.g.read_count = 1 ∧
    (polled demo_cfg pass_hangup POLLHUP 0 after_pass_eof).g.poll_input.revents = POLLHUP ∧
    loop_body demo_cfg after_pass_eof pass_hangup_silent
      = .more (loop_body demo_cfg after_pass_eof pass_hangup_silent).state ∧
    loop_body demo_cfg after_pass_eof pass_hangup
      = .next (loop_body demo_cfg after_pass_eof pass_hangup).state ∧
    (loop_body demo_cfg after_pass_eof pass_hangup).state.g.read_count = 2 ∧
    (loop_body demo_cfg after_pass_eof pass_hangup).state.g.stdin_consumed
      = [1, 2, 3, 5, 6] := by
  decide

/-- C19, the code at the failing input: four bytes fill the queue
(`total_buffered = max_queue = 4`, POLLIN off); the writer hangs up with two
more bytes to read and `poll` reports POLLHUP; `read_input` is called, asks
`read` for 0 bytes, gets 0 and sets `no_more_input`; `main` drains the four
bytes and returns 0, the two bytes never read. -/
theorem C19_zero_length_read_sets_no_more_input :
    after_pass_fill.g.total_buffered = tight_cfg.max_queue ∧
    after_pass_fill.g.poll_input.events &&& POLLIN = 0 ∧
    (polled tight_cfg pass_hangup POLLHUP 0 after_pass_fill).g.poll_input.revents = POLLHUP ∧
    to_read tight_cfg (polled tight_cfg pass_hangup POLLHUP 0 after_pass_fill).g = 0 ∧
    (loop_body tight_cfg after_pass_fill pass_hangup).state.g.no_more_input = true ∧
    main tight_cfg hangup_env = .ret (main tight_cfg hangup_env).state ∧
    (main tight_cfg hangup_env).state.g.stdin_consumed = [1, 2, 3, 4] ∧
    (main tight_cfg hangup_env).state.g.stdout_written = [1, 2, 3, 4] := by
  decide

/-! ### `parse_size` on decimal numerals -/

theorem digit_char_value : ∀ d : Fin 10, digit_value (digit_char d) = some d.val := by
  decide

theorem digit_char_head : ∀ d : Fin 10, isspace (digit_char d) = false ∧
    digit_char d ≠ '-' ∧ digit_char d ≠ '+' ∧ (d ≠ 0 → digit_char d ≠ '0') := by
  decide

/-- Scanning in a base up to 10 stops at once on a text that does not
begin with a decimal digit. -/
theorem scan_digits_stop_base (base : Nat) (hbase : base ≤ 10) (tail : List Char)
    (acc : Nat) (htail : ∀ c, tail.head? = some c → is_digit 10 c = false) :
    scan_digits base tail acc = (acc, tail) := by
  cases tail with
  | nil => rfl
  | cons c t =>
    have h := htail c rfl
    unfold is_digit at h
    unfold scan_digits
    cases hc : digit_value c with
    | none => rfl
    | some v =>
      rw [hc] at h
      simp only [decide_eq_false_iff_not] at h
      have hv : ¬ v < base := by omega
      simp [hv]

/-- Scanning stops at once on a text that does not begin with a decimal
digit. -/
theorem scan_digits_stop (tail : List Char) (acc : Nat)
    (htail : ∀ c, tail.head? = some c → is_digit 10 c = false) :
    scan_digits 10 tail acc = (acc, tail) := by
  cases tail with
  | nil => rfl
  | cons c t =>
    have h := htail c rfl
    unfold is_digit at h
    unfold scan_digits
    cases hc : digit_value c with
    | none => rfl
    | some v =>
      rw [hc] at h
      simp only [decide_eq_false_iff_not] at h
      simp [h]

/-- Scanning a decimal numeral gives its value. -/
theorem scan_digits_numeral (tail : List Char)
    (htail : ∀ c, tail.head? = some c → is_digit 10 c = false) :
    ∀ (ds : List (Fin 10)) (acc : Nat),
      scan_digits 10 (numeral_text ds ++ tail) acc
        = (ds.foldl (fun acc d => acc * 10 + d.val) acc, tail)
  | [], acc => by
    simpa [numeral_text] using scan_digits_stop tail acc htail
  | d :: ds, acc => by
    have ih := scan_digits_numeral tail htail ds (acc * 10 + d.val)
    simp only [numeral_text, List.map_cons, List.cons_append, List.foldl_cons] at ih ⊢
    unfold scan_digits
    simp only [digit_char_value d, d.isLt, if_true]
    exact ih

/-- What `strtoul` makes of a decimal numeral without leading zero, below
`2 ^ 64`, followed by a text that does not begin with a decimal digit. -/
theorem strtoul_numeral (d : Fin 10) (ds : List (Fin 10)) (tail : List Char) (hd : d ≠ 0)
    (hv : numeral_value (d :: ds) < SIZE_MOD)
    (htail : ∀ c, tail.head? = some c → is_digit 10 c = false) :
    strtoul (numeral_text (d :: ds) ++ tail) = (numeral_value (d :: ds), tail) := by
  obtain ⟨h1, h2, h3, h4⟩ := digit_char_head d
  have h4 := h4 hd
  have hscan := scan_digits_numeral tail htail (d :: ds) 0
  simp only [numeral_text, List.map_cons, List.cons_append] at hscan
  have hlen : ¬ tail.length = (digit_char d :: (ds.map digit_char ++ tail)).length := by
    simp only [List.length_cons, List.length_append, List.length_map]
    omega
  have hv2 : ¬ numeral_value (d :: ds) ≥ SIZE_MOD := by omega
  unfold numeral_value at hv2 ⊢
  simp only [strtoul, numeral_text, List.map_cons, List.cons_append, List.dropWhile_cons, h1,
    List.head?_cons, Option.some.injEq, h2, h3, h4, or_self, if_false, false_and,
    Bool.false_eq_true, hscan, hlen, hv2]

/-- What `strtoul` makes of the numeral 0 followed by a text that begins
neither with a decimal digit nor with `x` or `X` and a hexadecimal digit. -/
theorem strtoul_zero (tail : List Char)
    (htail : ∀ c, tail.head? = some c → is_digit 10 c = false)
    (hhex : ¬ hex_start tail) :
    strtoul ('0' :: tail) = (0, tail) := by
  have h1 : isspace '0' = false := by decide
  have h2 : ¬ ('0' : Char) = '-' := by decide
  have h3 : ¬ ('0' : Char) = '+' := by decide
  have h4 : digit_value '0' = some 0 := by decide
  have hscan : scan_digits 8 ('0' :: tail) 0 = (0, tail) := by
    unfold scan_digits
    simp only [h4, Nat.zero_mul, Nat.add_zero, Nat.zero_lt_succ, if_true]
    exact scan_digits_stop_base 8 (by omega) tail 0 htail
  have hlen : ¬ tail.length = ('0' :: tail).length := by
    simp only [List.length_cons]
    omega
  have hz : ¬ (0 : Nat) ≥ SIZE_MOD := by
    unfold SIZE_MOD
    omega
  have hhex2 : ¬ ((tail.head? = some 'x' ∨ tail.head? = some 'X') ∧
      Option.map (is_digit 16) tail.tail.head? = some true) := hhex
  simp only [strtoul, List.dropWhile_cons, h1, List.head?_cons, Option.some.injEq, h2, h3,
    or_self, if_false, Bool.false_eq_true, List.tail_cons, true_and, hhex2, if_true, hscan,
    hlen, hz]

/-- C15 fails as stated: the numeral of `2 ^ 64` sets `output` to
`2 ^ 64 - 1`, not to 0, and with the suffix `k` to `2 ^ 64 - 1024`; the
numeral `010` sets it to 8; the numeral `08` is refused; and the numeral 0
followed by the text `x10`, which is none of the suffixes, is accepted and
sets it to 16. -/
theorem C15_counterexample :
    parse_size "18446744073709551616".toList 7 = (true, 18446744073709551615) ∧
    parse_size "18446744073709551616k".toList 7 = (true, 18446744073709550592) ∧
    parse_size "010".toList 7 = (true, 8) ∧
    parse_size "08".toList 7 = (false, 7) ∧
    parse_size "0x10".toList 7 = (true, 16) := by
  decide

/-- C15 as amended: take a decimal numeral that is 0 or begins with a digit
other than 0, of value `n` below `2 ^ 64`, followed by a text that does not
begin with a decimal digit nor, after the numeral 0, with `x` or `X` and a
hexadecimal digit.  Then `parse_size` returns true and sets `output` to `n`
when the text is empty, and to `n * 2 ^ 10`, `n * 2 ^ 20`, `n * 2 ^ 30`,
`n * 2 ^ 40` modulo `2 ^ 64` when it is `k`, `M`, `G`, `T`; for any other
text it returns false and leaves `output` as it is. -/
theorem C15_parse_size_decimal (d : Fin 10) (ds : List (Fin 10)) (tail : List Char)
    (output : Nat) (hnum : d ≠ 0 ∨ ds = []) (hv : numeral_value (d :: ds) < SIZE_MOD)
    (htail : ∀ c, tail.head? = some c → is_digit 10 c = false)
    (hhex : d = 0 → ¬ hex_start tail) :
    (tail = [] →
      parse_size (numeral_text (d :: ds) ++ tail) output = (true, numeral_value (d :: ds))) ∧
    (tail = ['k'] → parse_size (numeral_text (d :: ds) ++ tail) output
      = (true, numeral_value (d :: ds) * 2 ^ 10 % SIZE_MOD)) ∧
    (tail = ['M'] → parse_size (numeral_text (d :: ds) ++ tail) output
      = (true, numeral_value (d :: ds) * 2 ^ 20 % SIZE_MOD)) ∧
    (tail = ['G'] → parse_size (numeral_text (d :: ds) ++ tail) output
      = (true, numeral_value (d :: ds) * 2 ^ 30 % SIZE_MOD)) ∧
    (tail = ['T'] → parse_size (numeral_text (d :: ds) ++ tail) output
      = (true, numeral_value (d :: ds) * 2 ^ 40 % SIZE_MOD)) ∧
    (tail ≠ [] → tail ≠ ['k'] → tail ≠ ['M'] → tail ≠ ['G'] → tail ≠ ['T'] →
      parse_size (numeral_text (d :: ds) ++ tail) output = (false, output)) := by
  have hs : strtoul (numeral_text (d :: ds) ++ tail) = (numeral_value (d :: ds), tail) := by
    by_cases hd : d = 0
    · have hds : ds = [] := hnum.resolve_left (fun h => h hd)
      subst hd
      subst hds
      exact strtoul_zero tail htail (hhex rfl)
    · exact strtoul_numeral d ds tail hd hv htail
  unfold parse_size
  simp only [hs, Nat.shiftLeft_eq]
  refine ⟨?_, ?_, ?_, ?_, ?_, ?_⟩
  · intro h; simp [h]
  · intro h; subst h; simp
  · intro h; subst h; simp
  · intro h; subst h; simp
  · intro h; subst h; simp
  · intro h1 h2 h3 h4 h5
    simp [h1, h2, h3, h4, h5]

/-- C15 as amended, on the numeral 64 with the suffix `k` (65536, the
default read unit) and with the text `kB`, which is refused, and on the
numeral 0 alone, with the suffix `k`, and with the text `x`, which is
refused. -/
theorem C15_parse_size_decimal_witness :
    numeral_text [6, 4] ++ ['k'] = "64k".toList ∧
    parse_size "64k".toList 7 = (true, 65536) ∧
    parse_size (numeral_text [6, 4] ++ ['k']) 7 = (true, numeral_value [6, 4] * 2 ^ 10 % SIZE_MOD) ∧
    parse_size (numeral_text [6, 4] ++ ['k', 'B']) 7 = (false, 7) ∧
    numeral_text [0] ++ ['k'] = "0k".toList ∧
    parse_size (numeral_text [0] ++ []) 7 = (true, numeral_value [0]) ∧
    parse_size (numeral_text [0] ++ ['k']) 7 = (true, numeral_value [0] * 2 ^ 10 % SIZE_MOD) ∧
    parse_size (numeral_text [0] ++ ['x']) 7 = (false, 7) :=
  ⟨by decide, by decide,
   (C15_parse_size_decimal 6 [4] ['k'] 7 (by decide) (by decide) (by decide)
      (by decide)).2.1 rfl,
   (C15_parse_size_decimal 6 [4] ['k', 'B'] 7 (by decide) (by decide) (by decide)
      (by decide)).2.2.2.2.2 (by decide) (by decide) (by decide) (by decide) (by decide),
   by decide,
   (C15_parse_size_decimal 0 [] [] 7 (by decide) (by decide) (by decide)
      (by decide)).1 rfl,
   (C15_parse_size_decimal 0 [] ['k'] 7 (by decide) (by decide) (by decide)
      (by decide)).2.1 rfl,
   (C15_parse_size_decimal 0 [] ['x'] 7 (by decide) (by decide) (by decide)
      (by decide)).2.2.2.2.2 (by decide) (by decide) (by decide) (by decide) (by decide)⟩

end PBuffer
